import Mathlib

/-!
Verification of the membership-and-placement subsystem of the cortex
repository: a shallow embedding of the ring descriptor wire format
(`pkg/ring/ring.pb.go`), the replication strategies, the token generator
and the lifecycler startup sequence, with theorems settling the
specification claims.

Go machine integers are modelled as `Nat`/`Int` with explicit `% 2^w`
wrap where the Go code can overflow.  Go byte slices and strings are
modelled as `List Nat` of byte values.  The Go map `map[string]IngesterDesc`
is modelled as an association list (one entry per key, in iteration
order); Go map iteration order is arbitrary, which the model reflects by
quantifying over all entry orders.  Fallible Go functions returning
`error` are modelled as `Option`-returning functions, collapsing the
distinct error values to `none` (no claim distinguishes decode errors).
Loops that consume a byte slice are modelled with an explicit fuel
argument; every iteration of the corresponding Go loop consumes at least
one byte, so fuel `length + 1` makes the model agree with the Go loop on
every input.
-/

deriving instance DecidableEq for Except

/-! ## Instance states (ring.pb.go, `IngesterState`) -/

/-- Go `type IngesterState int32`. -/
abbrev IngesterState := Int

def ACTIVE : IngesterState := 0

def LEAVING : IngesterState := 1

def PENDING : IngesterState := 2

def JOINING : IngesterState := 3

def LEFT : IngesterState := 4

/-- Go `IngesterState_name` map, as an association list. -/
def IngesterState_name : List (Int × String) :=
  [(0, "ACTIVE"), (1, "LEAVING"), (2, "PENDING"), (3, "JOINING"), (4, "LEFT")]

/-- Go `IngesterState_value` map, as an association list. -/
def IngesterState_value : List (String × Int) :=
  [("ACTIVE", 0), ("LEAVING", 1), ("PENDING", 2), ("JOINING", 3), ("LEFT", 4)]

/-! ## Descriptors (ring.pb.go, `IngesterDesc` and `Desc`) -/

/-- Go `IngesterDesc`: `Addr string` (field 1), `Timestamp int64` (field 2),
`State IngesterState` (field 3), `Tokens []uint32` (packed, field 6).
The Go string is a byte sequence, modelled as `List Nat`. -/
structure IngesterDesc where
  Addr : List Nat
  Timestamp : Int
  State : IngesterState
  Tokens : List Nat
deriving DecidableEq, Repr

/-- The Go zero value `IngesterDesc{}`. -/
def zeroIngesterDesc : IngesterDesc := ⟨[], 0, 0, []⟩

/-- Go `Desc`: `Ingesters map[string]IngesterDesc`, modelled as an
association list with pairwise-distinct keys (one entry per map key, in
iteration order). -/
structure Desc where
  Ingesters : List (List Nat × IngesterDesc)
deriving DecidableEq, Repr

/-- Go map read `m[k]`: the mapped value, or the zero value when the key
is absent. -/
def goMapGet : List (List Nat × IngesterDesc) → List Nat → IngesterDesc
  | [], _ => zeroIngesterDesc
  | (k', v) :: rest, k => if k' = k then v else goMapGet rest k

/-- Go map write `m[k] = v`: replace the entry when the key is present,
otherwise append it. -/
def goMapInsert : List (List Nat × IngesterDesc) → List Nat → IngesterDesc →
    List (List Nat × IngesterDesc)
  | [], k, v => [(k, v)]
  | (k', v') :: rest, k, v =>
    if k' = k then (k, v) :: rest else (k', v') :: goMapInsert rest k v

/-- `IngesterDesc.Equal` from ring.pb.go: field-by-field comparison, with
token slices compared by length and element-wise. -/
def IngesterDesc.equalB (a b : IngesterDesc) : Bool :=
  a.Addr == b.Addr && a.Timestamp == b.Timestamp &&
    a.State == b.State && a.Tokens == b.Tokens

/-- `Desc.Equal` from ring.pb.go: the instance maps have the same size and
every entry of the left map equals the right map's entry for that key
(the zero value when absent, per Go map read semantics). -/
def Desc.equalB (a b : Desc) : Bool :=
  a.Ingesters.length == b.Ingesters.length &&
    a.Ingesters.all fun kv => kv.2.equalB (goMapGet b.Ingesters kv.1)

/-! ## Varint encoding (ring.pb.go, `encodeVarintRing` and `sovRing`)

`encodeVarintRing` loops while `v >= 1<<7`, emitting `uint8(v&0x7f|0x80)`
and shifting `v >>= 7`; a `uint64` needs at most 10 iterations, so fuel 10
is exact on the whole domain of the Go function. -/

def encodeVarintLoop : Nat → Nat → List Nat
  | 0, v => [v % 256]
  | fuel + 1, v =>
    if v < 128 then [v] else (v &&& 127 ||| 128) :: encodeVarintLoop fuel (v >>> 7)

/-- Go `encodeVarintRing` (the emitted bytes, in stream order). -/
def encodeVarintRing (v : Nat) : List Nat := encodeVarintLoop 10 v

def sovRingLoop : Nat → Nat → Nat → Nat
  | 0, _, n => n
  | fuel + 1, x, n =>
    if x >>> 7 = 0 then n + 1 else sovRingLoop fuel (x >>> 7) (n + 1)

/-- Go `sovRing`: the varint byte length of `x`. -/
def sovRing (x : Nat) : Nat := sovRingLoop 10 x 0

/-! ## Go integer casts -/

/-- Go `uint64(x)` for a signed `x` (int64, or a sign-extended int32):
the two's-complement bit pattern. -/
def goUint64ofInt (x : Int) : Nat := (x % ((2 : Int) ^ 64)).toNat

/-- The `int64` value whose 64-bit pattern is `n`. -/
def goInt64ofBits (n : Nat) : Int :=
  if 2 ^ 63 ≤ n % 2 ^ 64 then ((n % 2 ^ 64 : Nat) : Int) - 2 ^ 64
  else ((n % 2 ^ 64 : Nat) : Int)

/-- The `int32` value whose low 32 bits are `n`'s. -/
def goInt32ofBits (n : Nat) : Int :=
  if 2 ^ 31 ≤ n % 2 ^ 32 then ((n % 2 ^ 32 : Nat) : Int) - 2 ^ 32
  else ((n % 2 ^ 32 : Nat) : Int)

/-! ## Varint decoding

Every `Unmarshal` loop in ring.pb.go reads one varint with the shape
`for shift := uint(0); ; shift += 7 { if shift >= 64 { overflow };
b := dAtA[iNdEx]; iNdEx++; acc |= T(b&0x7F) << shift; if b < 0x80 break }`
where `T` is a Go integer type of width `w` (64 for uint64/int64/int,
32 for uint32/int32); the shift and the or wrap at width `w`.
`readVarint w` is that loop, returning the accumulated bit pattern and
the remaining bytes. -/

def readVarint (w : Nat) : List Nat → Nat → Nat → Option (Nat × List Nat)
  | [], _, _ => none
  | b :: rest, shift, acc =>
    if 64 ≤ shift then none
    else
      let acc2 := acc ||| ((b &&& 127) <<< shift) % 2 ^ w
      if b < 128 then some (acc2, rest) else readVarint w rest (shift + 7) acc2

/-! ## Sizes (ring.pb.go, `IngesterDesc.Size`) -/

/-- Go `IngesterDesc.Size`: zero-valued fields contribute nothing. -/
def IngesterDesc.size (m : IngesterDesc) : Nat :=
  (if m.Addr.length > 0 then 1 + m.Addr.length + sovRing m.Addr.length else 0)
    + (if m.Timestamp ≠ 0 then 1 + sovRing (goUint64ofInt m.Timestamp) else 0)
    + (if m.State ≠ 0 then 1 + sovRing (goUint64ofInt m.State) else 0)
    + (if m.Tokens ≠ [] then
        1 + sovRing ((m.Tokens.map sovRing).sum) + (m.Tokens.map sovRing).sum
      else 0)

/-! ## Marshalling (ring.pb.go, `IngesterDesc.MarshalTo` and `Desc.MarshalTo`)

`Marshal` allocates a `Size()`-byte buffer and runs `MarshalTo`; the model
produces the emitted byte list directly.  Field tags: `0xa` (field 1,
bytes), `0x10` (field 2, varint), `0x18` (field 3, varint), `0x32`
(field 6, packed bytes), `0x12` (map value, bytes). -/

/-- Go `IngesterDesc.Marshal`. -/
def IngesterDesc.marshal (m : IngesterDesc) : List Nat :=
  (if m.Addr.length > 0 then 10 :: encodeVarintRing m.Addr.length ++ m.Addr else [])
    ++ (if m.Timestamp ≠ 0 then 16 :: encodeVarintRing (goUint64ofInt m.Timestamp) else [])
    ++ (if m.State ≠ 0 then 24 :: encodeVarintRing (goUint64ofInt m.State) else [])
    ++ (if m.Tokens ≠ [] then
          50 :: encodeVarintRing ((m.Tokens.map encodeVarintRing).flatten.length)
            ++ (m.Tokens.map encodeVarintRing).flatten
        else [])

/-- One map entry of `Desc.MarshalTo`: a field-1 length-delimited message
holding the key (field 1) and the marshalled `IngesterDesc` (field 2);
`mapSize` and `msgSize` are computed from `Size` exactly as in the source. -/
def descEntryBytes (kv : List Nat × IngesterDesc) : List Nat :=
  10 :: encodeVarintRing
      (1 + kv.1.length + sovRing kv.1.length
        + (kv.2.size + 1 + sovRing kv.2.size))
    ++ (10 :: encodeVarintRing kv.1.length ++ kv.1)
    ++ (18 :: encodeVarintRing kv.2.size ++ kv.2.marshal)

/-- Go `Desc.Marshal`: one map entry per instance, in iteration order. -/
def Desc.marshal (d : Desc) : List Nat :=
  (d.Ingesters.map descEntryBytes).flatten

/-! ## Skipping unknown fields (ring.pb.go, `skipRing`) -/

mutual

/-- Go `skipRing`: the number of bytes occupied by the field starting at
the head of `bytes` (which may exceed `bytes.length` for fixed-width wire
types; the callers bounds-check the result, as in the source). -/
def skipRingLoop : Nat → List Nat → Option Nat
  | 0, _ => none
  | fuel + 1, bytes =>
    match readVarint 64 bytes 0 0 with
    | none => none
    | some (wire, r1) =>
      let consumed := bytes.length - r1.length
      let wireType := wire &&& 7
      if wireType = 0 then
        match readVarint 64 r1 0 0 with
        | none => none
        | some (_, r2) => some (bytes.length - r2.length)
      else if wireType = 1 then some (consumed + 8)
      else if wireType = 2 then
        match readVarint 64 r1 0 0 with
        | none => none
        | some (len, r2) =>
          if 2 ^ 63 ≤ len then none else some (bytes.length - r2.length + len)
      else if wireType = 3 then
        match skipGroup fuel r1 with
        | none => none
        | some inner => some (consumed + inner)
      else if wireType = 4 then some consumed
      else if wireType = 5 then some (consumed + 4)
      else none

/-- The inner loop of `skipRing`'s group case: skip fields until an
end-group tag, returning the bytes consumed including that tag. -/
def skipGroup : Nat → List Nat → Option Nat
  | 0, _ => none
  | fuel + 1, bytes =>
    match readVarint 64 bytes 0 0 with
    | none => none
    | some (innerWire, r1) =>
      if innerWire &&& 7 = 4 then some (bytes.length - r1.length)
      else
        match skipRingLoop fuel bytes with
        | none => none
        | some next =>
          if bytes.length < next then none
          else
            match skipGroup fuel (bytes.drop next) with
            | none => none
            | some rest => some (next + rest)

end

/-- Go `skipRing` with sufficient fuel for its input. -/
def skipRing (bytes : List Nat) : Option Nat := skipRingLoop (bytes.length + 1) bytes

/-! ## Unmarshalling (ring.pb.go, `IngesterDesc.Unmarshal` and `Desc.Unmarshal`)

The negativity checks on Go `int` values decoded from varints
(`msglen < 0`, `intStringLen < 0`, `packedLen < 0`) become `2^63 ≤ n`
checks on the 64-bit pattern; the `postIndex > l` checks become length
checks on the remaining byte list.  The `elementCount` pre-allocation in
the packed-tokens case only sets a slice capacity and has no semantic
effect, so it is not modelled. -/

/-- The packed-tokens inner loop (`for iNdEx < postIndex` in field 6,
wire type 2): decode varints until the packed payload is exhausted,
appending to `m.Tokens`. -/
def tokensLoop : Nat → List Nat → List Nat → Option (List Nat)
  | _, toks, [] => some toks
  | 0, _, _ :: _ => none
  | fuel + 1, toks, b :: rest =>
    match readVarint 32 (b :: rest) 0 0 with
    | none => none
    | some (v, r2) => tokensLoop fuel (toks ++ [v]) r2

/-- One iteration of the field loop of `IngesterDesc.Unmarshal`: read a
tag, dispatch on the field number, and return the updated descriptor and
the remaining bytes. -/
def ingesterDescStep (m : IngesterDesc) (bytes : List Nat) :
    Option (IngesterDesc × List Nat) :=
  match readVarint 64 bytes 0 0 with
  | none => none
  | some (wire, r1) =>
    let wireType := wire &&& 7
    let fieldNum := goInt32ofBits (wire >>> 3)
    if wireType = 4 then none
    else if fieldNum ≤ 0 then none
    else if fieldNum = 1 then
      if wireType ≠ 2 then none
      else
        match readVarint 64 r1 0 0 with
        | none => none
        | some (len, r2) =>
          if 2 ^ 63 ≤ len then none
          else if r2.length < len then none
          else some ({ m with Addr := r2.take len }, r2.drop len)
    else if fieldNum = 2 then
      if wireType ≠ 0 then none
      else
        match readVarint 64 r1 0 0 with
        | none => none
        | some (v, r2) => some ({ m with Timestamp := goInt64ofBits v }, r2)
    else if fieldNum = 3 then
      if wireType ≠ 0 then none
      else
        match readVarint 32 r1 0 0 with
        | none => none
        | some (v, r2) => some ({ m with State := goInt32ofBits v }, r2)
    else if fieldNum = 6 then
      if wireType = 0 then
        match readVarint 32 r1 0 0 with
        | none => none
        | some (v, r2) => some ({ m with Tokens := m.Tokens ++ [v] }, r2)
      else if wireType = 2 then
        match readVarint 64 r1 0 0 with
        | none => none
        | some (plen, r2) =>
          if 2 ^ 63 ≤ plen then none
          else if r2.length < plen then none
          else
            match tokensLoop (plen + 1) m.Tokens (r2.take plen) with
            | none => none
            | some toks => some ({ m with Tokens := toks }, r2.drop plen)
      else none
    else
      match skipRing bytes with
      | none => none
      | some skippy =>
        if bytes.length < skippy then none else some (m, bytes.drop skippy)

/-- The field loop of `IngesterDesc.Unmarshal`: iterate `ingesterDescStep`
until the bytes are exhausted. -/
def ingesterDescUnmarshalLoop : Nat → IngesterDesc → List Nat → Option IngesterDesc
  | _, m, [] => some m
  | 0, _, _ :: _ => none
  | fuel + 1, m, b :: rest =>
    match ingesterDescStep m (b :: rest) with
    | none => none
    | some (m2, r2) => ingesterDescUnmarshalLoop fuel m2 r2

/-- Go `IngesterDesc.Unmarshal`. -/
def IngesterDesc.unmarshal (bytes : List Nat) : Option IngesterDesc :=
  ingesterDescUnmarshalLoop (bytes.length + 1) zeroIngesterDesc bytes

/-- One iteration of the map-entry loop of `Desc.Unmarshal`
(`for iNdEx < postIndex`): field 1 is the map key, field 2 the map value
(unmarshalled from its own sub-slice), anything else is skipped. -/
def descEntryStep (k : List Nat) (v : IngesterDesc) (bytes : List Nat) :
    Option (List Nat × IngesterDesc × List Nat) :=
  match readVarint 64 bytes 0 0 with
  | none => none
  | some (wire, r1) =>
    let fieldNum := goInt32ofBits (wire >>> 3)
    if fieldNum = 1 then
      match readVarint 64 r1 0 0 with
      | none => none
      | some (len, r2) =>
        if 2 ^ 63 ≤ len then none
        else if r2.length < len then none
        else some (r2.take len, v, r2.drop len)
    else if fieldNum = 2 then
      match readVarint 64 r1 0 0 with
      | none => none
      | some (mlen, r2) =>
        if 2 ^ 63 ≤ mlen then none
        else if r2.length < mlen then none
        else
          match IngesterDesc.unmarshal (r2.take mlen) with
          | none => none
          | some v2 => some (k, v2, r2.drop mlen)
    else
      match skipRing bytes with
      | none => none
      | some skippy =>
        if bytes.length < skippy then none else some (k, v, bytes.drop skippy)

/-- The map-entry loop of `Desc.Unmarshal`: iterate `descEntryStep` until
the entry's bytes are exhausted. -/
def descEntryLoop : Nat → List Nat → IngesterDesc → List Nat →
    Option (List Nat × IngesterDesc)
  | _, k, v, [] => some (k, v)
  | 0, _, _, _ :: _ => none
  | fuel + 1, k, v, b :: rest =>
    match descEntryStep k v (b :: rest) with
    | none => none
    | some (k2, v2, r2) => descEntryLoop fuel k2 v2 r2

/-- One iteration of the field loop of `Desc.Unmarshal`: each field-1
message is a map entry, parsed by `descEntryLoop` from its own sub-slice
and stored with `m.Ingesters[mapkey] = *mapvalue`. -/
def descStep (es : List (List Nat × IngesterDesc)) (bytes : List Nat) :
    Option (List (List Nat × IngesterDesc) × List Nat) :=
  match readVarint 64 bytes 0 0 with
  | none => none
  | some (wire, r1) =>
    let wireType := wire &&& 7
    let fieldNum := goInt32ofBits (wire >>> 3)
    if wireType = 4 then none
    else if fieldNum ≤ 0 then none
    else if fieldNum = 1 then
      if wireType ≠ 2 then none
      else
        match readVarint 64 r1 0 0 with
        | none => none
        | some (mlen, r2) =>
          if 2 ^ 63 ≤ mlen then none
          else if r2.length < mlen then none
          else
            match descEntryLoop (mlen + 1) [] zeroIngesterDesc (r2.take mlen) with
            | none => none
            | some (k, v) => some (goMapInsert es k v, r2.drop mlen)
    else
      match skipRing bytes with
      | none => none
      | some skippy =>
        if bytes.length < skippy then none else some (es, bytes.drop skippy)

/-- The field loop of `Desc.Unmarshal`: iterate `descStep` until the bytes
are exhausted. -/
def descUnmarshalLoop : Nat → List (List Nat × IngesterDesc) → List Nat → Option Desc
  | _, es, [] => some ⟨es⟩
  | 0, _, _ :: _ => none
  | fuel + 1, es, b :: rest =>
    match descStep es (b :: rest) with
    | none => none
    | some (es2, r2) => descUnmarshalLoop fuel es2 r2

/-- Go `Desc.Unmarshal`. -/
def Desc.unmarshal (bytes : List Nat) : Option Desc :=
  descUnmarshalLoop (bytes.length + 1) [] bytes

/-! ## Field-number scanner

Formalisation of the spec's "the serialized `InstanceDesc` record carries
exactly the fields ..." (§6): the sequence of top-level protobuf field
numbers appearing in a byte string, obtained by reading each tag and
skipping its payload according to the wire type. -/

def fieldScanStep (bytes : List Nat) : Option (Nat × List Nat) :=
  match readVarint 64 bytes 0 0 with
  | none => none
  | some (wire, r1) =>
    let wireType := wire &&& 7
    let fieldNum := wire >>> 3
    if wireType = 0 then
      match readVarint 64 r1 0 0 with
      | none => none
      | some (_, r2) => some (fieldNum, r2)
    else if wireType = 2 then
      match readVarint 64 r1 0 0 with
      | none => none
      | some (len, r2) =>
        if r2.length < len then none else some (fieldNum, r2.drop len)
    else if wireType = 5 then
      if r1.length < 4 then none else some (fieldNum, r1.drop 4)
    else if wireType = 1 then
      if r1.length < 8 then none else some (fieldNum, r1.drop 8)
    else none

def fieldScanLoop : Nat → List Nat → List Nat → Option (List Nat)
  | _, acc, [] => some acc
  | 0, _, _ :: _ => none
  | fuel + 1, acc, b :: rest =>
    match fieldScanStep (b :: rest) with
    | none => none
    | some (fieldNum, r2) => fieldScanLoop fuel (acc ++ [fieldNum]) r2

/-- The top-level field numbers of an encoded protobuf record, in order of
appearance (`none` if the bytes are not a well-formed record). -/
def fieldNums (bytes : List Nat) : Option (List Nat) :=
  fieldScanLoop (bytes.length + 1) [] bytes

/-! ## Replication strategies

The file `pkg/ring/replication_strategy.go` is not under src/; only its
test `pkg/ring/replication_strategy_test.go` is.  The strategies are
modelled from the spec (§4.3), with one amendment forced by that test:
the test pins `maxFailure = 1` for `rf = 3` with 4 live instances and the
error "at least 3 live replicas required, could only find 2" for `rf = 3`
with 2 live + 2 dead instances, so the default strategy raises the
effective replication factor to the candidate count when more candidates
than `rf` are passed (the candidate count before health filtering), and
only then takes `minSuccess = rf/2 + 1`.  Example theorems below replay
every row of the test against the model. -/

/-- Go `Operation` (`Read`, `Write`, `Reporting`). -/
inductive Op where
  | Read : Op
  | Write : Op
  | Reporting : Op
deriving DecidableEq, Repr

/-- Modelled from the spec: `IsHealthy` is absent from src/.  Per §4.2/§3,
an instance is healthy for an op when its state is eligible for that op
(Writes need ACTIVE; Reads additionally accept LEAVING; Reporting accepts
all states) and its heartbeat is fresh (`now − heartbeat ≤ timeout`,
both in Unix seconds). -/
def IsHealthy (i : IngesterDesc) (op : Op) (heartbeatTimeout now : Int) : Bool :=
  (match op with
    | Op.Write => i.State == ACTIVE
    | Op.Read => i.State == ACTIVE || i.State == LEAVING
    | Op.Reporting => true)
    && (now - i.Timestamp ≤ heartbeatTimeout)

/-- Modelled from the spec: the default strategy's `Filter` is absent from
src/.  Per §4.3 amended by replication_strategy_test.go: raise the
replication factor to the candidate count if larger, require
`minSuccess = rf/2 + 1`, drop unhealthy candidates (in place, preserving
order), fail when fewer than `minSuccess` healthy candidates remain, else
return the healthy candidates and `maxErrors = healthy − minSuccess`.
The trailing zone-awareness flag is accepted but unused (the spec gives a
single error message and this code generation predates zones). -/
def defaultFilter (ingesters : List IngesterDesc) (op : Op) (replicationFactor : Nat)
    (heartbeatTimeout now : Int) (_zoneAware : Bool) :
    Except String (List IngesterDesc × Nat) :=
  let rf := if ingesters.length > replicationFactor then ingesters.length
            else replicationFactor
  let minSuccess := rf / 2 + 1
  let live := ingesters.filter fun i => IsHealthy i op heartbeatTimeout now
  if live.length < minSuccess then
    Except.error ("at least " ++ toString minSuccess
      ++ " live replicas required, could only find " ++ toString live.length)
  else
    Except.ok (live, live.length - minSuccess)

/-- Modelled from the spec: the ignore-unhealthy strategy's `Filter` is
absent from src/.  Per §4.3: keep the healthy candidates; any number ≥ 1
is acceptable with `maxErrors = n − 1`; with none, fail with the fixed
message. -/
def ignoreUnhealthyFilter (instances : List IngesterDesc) (op : Op)
    (_replicationFactor : Nat) (heartbeatTimeout now : Int) (_zoneAware : Bool) :
    Except String (List IngesterDesc × Nat) :=
  let healthy := instances.filter fun i => IsHealthy i op heartbeatTimeout now
  if healthy.length = 0 then
    Except.error "at least 1 healthy replica required, could only find 0"
  else
    Except.ok (healthy, healthy.length - 1)

/-! ## Token generation -/

/-- Modelled from the spec: `GenerateTokens` is absent from src/.  Per
§4.1/§3, draw 32-bit values from a PRNG (modelled as the stream
`stream 0, stream 1, ...`, truncated to 32 bits), reject any value
already in the used set (the taken set plus the values generated so
far), and append accepted values until `numTokens` have been produced.
The rejection loop is given explicit fuel; `none` models a run in which
the stream never yields enough fresh values. -/
def generateLoop : Nat → Nat → List Nat → (Nat → Nat) → Nat → List Nat →
    Option (List Nat)
  | _, 0, _, _, _, acc => some acc
  | 0, _ + 1, _, _, _, _ => none
  | fuel + 1, need + 1, used, stream, pos, acc =>
    let candidate := stream pos % 2 ^ 32
    if candidate ∈ used then generateLoop fuel (need + 1) used stream (pos + 1) acc
    else generateLoop fuel need (candidate :: used) stream (pos + 1) (acc ++ [candidate])

/-- Modelled from the spec: `GenerateTokens(numTokens, takenTokens)` with
an explicit PRNG stream and fuel. -/
def GenerateTokens (numTokens : Nat) (takenTokens : List Nat) (stream : Nat → Nat)
    (fuel : Nat) : Option (List Nat) :=
  if numTokens = 0 then some []
  else generateLoop fuel numTokens takenTokens stream 0 []

/-! ## Lifecycler startup -/

/-- The observable state of a lifecycler (`IsRegistered`, `GetState`,
`GetTokens`). -/
structure LifecyclerState where
  registered : Bool
  state : IngesterState
  tokens : List Nat
deriving DecidableEq, Repr

/-- Modelled from the spec: the lifecycler implementation is absent from
src/.  Per §4.4, before the join attempt the lifecycler is unregistered,
PENDING, with no tokens. -/
def lifecyclerInit : LifecyclerState := ⟨false, PENDING, []⟩

/-- Modelled from the spec: the initial-sync registration step.  Per §4.4
and §3 ("Tokens are generated once at lifecycler start (or loaded from
local persistence) and remain stable"), the lifecycler adopts every token
its pre-existing ring entry held (whatever that entry's state) and CASes
itself into the ring in state JOINING. -/
def lifecyclerJoin (ring : Desc) (id : List Nat) :
    Desc × LifecyclerState :=
  let oldTokens := (goMapGet ring.Ingesters id).Tokens
  let lc : LifecyclerState := ⟨true, JOINING, oldTokens⟩
  (⟨goMapInsert ring.Ingesters id ⟨[], 0, JOINING, oldTokens⟩⟩, lc)

/-- Modelled from the spec: startup completion.  The lifecycler tops its
token set up to `numTokens` with freshly generated tokens (disjoint from
the ones it already holds) and becomes ACTIVE. -/
def lifecyclerActivate (numTokens : Nat) (stream : Nat → Nat) (fuel : Nat)
    (ring : Desc) (id : List Nat) (lc : LifecyclerState) :
    Option (Desc × LifecyclerState) :=
  match GenerateTokens (numTokens - lc.tokens.length) lc.tokens stream fuel with
  | none => none
  | some fresh =>
    let tokens := lc.tokens ++ fresh
    some (⟨goMapInsert ring.Ingesters id ⟨[], 0, ACTIVE, tokens⟩⟩,
      ⟨true, ACTIVE, tokens⟩)

/-! ## Well-formedness

The ranges a descriptor coming from the Go program always satisfies:
byte values in strings, the Go integer ranges of each field, and size
bounds within the positive `int` range (the Go `Size`/`MarshalTo` pair is
only used on values whose encodings fit in memory). -/

def WFIngesterDesc (v : IngesterDesc) : Prop :=
  (∀ b ∈ v.Addr, b < 256) ∧ v.Addr.length < 2 ^ 63 ∧
    (-(2 ^ 63) ≤ v.Timestamp ∧ v.Timestamp < 2 ^ 63) ∧
    (-(2 ^ 31) ≤ v.State ∧ v.State < 2 ^ 31) ∧
    (∀ t ∈ v.Tokens, t < 2 ^ 32) ∧
    (v.Tokens.map sovRing).sum < 2 ^ 63

instance (v : IngesterDesc) : Decidable (WFIngesterDesc v) := by
  unfold WFIngesterDesc
  infer_instance

def WFEntry (kv : List Nat × IngesterDesc) : Prop :=
  (∀ b ∈ kv.1, b < 256) ∧ kv.1.length < 2 ^ 61 ∧ WFIngesterDesc kv.2 ∧
    kv.2.size < 2 ^ 61

instance (kv : List Nat × IngesterDesc) : Decidable (WFEntry kv) := by
  unfold WFEntry
  infer_instance

def WFDesc (d : Desc) : Prop :=
  (d.Ingesters.map fun kv => kv.1).Nodup ∧ ∀ kv ∈ d.Ingesters, WFEntry kv

instance (d : Desc) : Decidable (WFDesc d) := by
  unfold WFDesc
  infer_instance

/-- The number of fields present in a marshalled `IngesterDesc` (one loop
iteration each when unmarshalling). -/
def ingIter (v : IngesterDesc) : Nat :=
  (if v.Addr.length > 0 then 1 else 0) + (if v.Timestamp ≠ 0 then 1 else 0)
    + (if v.State ≠ 0 then 1 else 0) + (if v.Tokens ≠ [] then 1 else 0)

/-! ## Varint lemmas -/

theorem lor_eq_add_of_lt {a : Nat} (b s : Nat) (h : a < 2 ^ s) :
    a ||| b * 2 ^ s = a + b * 2 ^ s := by
  apply Nat.eq_of_testBit_eq
  intro j
  have h2 : a + b * 2 ^ s = 2 ^ s * b + a := by ring
  rw [Nat.testBit_lor, h2, Nat.testBit_mul_pow_two_add b h j, ← Nat.shiftLeft_eq,
    Nat.testBit_shiftLeft]
  by_cases hj : j < s
  · have hns : ¬ s ≤ j := by omega
    simp [hj, hns]
  · have hs : s ≤ j := by omega
    have ha : a.testBit j = false :=
      Nat.testBit_lt_two_pow (lt_of_lt_of_le h (Nat.pow_le_pow_right (by norm_num) hs))
    simp [hj, hs, ha]

theorem lor_mod_term {acc : Nat} (d s w : Nat) (h1 : acc < 2 ^ s) (h2 : acc < 2 ^ w) :
    acc ||| d * 2 ^ s % 2 ^ w = (acc + d * 2 ^ s) % 2 ^ w := by
  rcases le_or_lt w s with hws | hsw
  · obtain ⟨c, hc⟩ : 2 ^ w ∣ d * 2 ^ s := Dvd.dvd.mul_left (pow_dvd_pow 2 hws) d
    rw [hc, Nat.mul_mod_right, Nat.or_zero, Nat.add_mul_mod_self_left,
      Nat.mod_eq_of_lt h2]
  · have hpow : 2 ^ (w - s) * 2 ^ s = 2 ^ w := by
      rw [← pow_add]
      congr 1
      omega
    have hd : d * 2 ^ s = d % 2 ^ (w - s) * 2 ^ s + d / 2 ^ (w - s) * 2 ^ w := by
      calc d * 2 ^ s
          = (2 ^ (w - s) * (d / 2 ^ (w - s)) + d % 2 ^ (w - s)) * 2 ^ s := by
            rw [Nat.div_add_mod]
        _ = d % 2 ^ (w - s) * 2 ^ s + d / 2 ^ (w - s) * (2 ^ (w - s) * 2 ^ s) := by
            ring
        _ = _ := by rw [hpow]
    have hm : d % 2 ^ (w - s) < 2 ^ (w - s) := Nat.mod_lt _ (by positivity)
    have key : d % 2 ^ (w - s) * 2 ^ s + 2 ^ s ≤ 2 ^ w := by
      calc d % 2 ^ (w - s) * 2 ^ s + 2 ^ s
          = (d % 2 ^ (w - s) + 1) * 2 ^ s := by ring
        _ ≤ 2 ^ (w - s) * 2 ^ s := Nat.mul_le_mul_right _ (by omega)
        _ = 2 ^ w := hpow
    have hps : 0 < 2 ^ s := by positivity
    have hq : d % 2 ^ (w - s) * 2 ^ s < 2 ^ w := by omega
    have hsum : acc + d % 2 ^ (w - s) * 2 ^ s < 2 ^ w := by omega
    rw [hd, ← Nat.add_assoc, Nat.add_mul_mod_self_right, Nat.add_mul_mod_self_right,
      Nat.mod_eq_of_lt hq, lor_eq_add_of_lt _ _ h1, Nat.mod_eq_of_lt hsum]

theorem and127 (v : Nat) : v &&& 127 = v % 128 := by
  have h := Nat.and_pow_two_sub_one_eq_mod v 7
  norm_num at h
  exact h

theorem or128 {x : Nat} (hx : x < 128) : x ||| 128 = x + 128 := by
  have h := lor_eq_add_of_lt (a := x) 1 7 (by norm_num [hx])
  norm_num at h
  exact h

theorem readVarint_encodeLoop {w : Nat} :
    ∀ (fuel v shift acc : Nat) (rest : List Nat),
      v < 2 ^ (7 * fuel) → shift + 7 * fuel ≤ 70 → shift < 64 →
      acc < 2 ^ shift → acc < 2 ^ w →
      readVarint w (encodeVarintLoop fuel v ++ rest) shift acc =
        some ((acc + v * 2 ^ shift) % 2 ^ w, rest) := by
  intro fuel
  induction fuel with
  | zero =>
    intro v shift acc rest hv h70 hs hacc haccw
    have hv0 : v = 0 := by
      norm_num at hv
      omega
    subst hv0
    simp only [encodeVarintLoop, Nat.zero_mod, List.cons_append, List.nil_append,
      readVarint]
    have hns : ¬ 64 ≤ shift := by omega
    simp only [hns, if_false, ite_false]
    norm_num
    exact (Nat.mod_eq_of_lt haccw).symm
  | succ fuel ih =>
    intro v shift acc rest hv h70 hs hacc haccw
    by_cases hv128 : v < 128
    · simp only [encodeVarintLoop, hv128, if_true, List.cons_append, readVarint]
      have hns : ¬ 64 ≤ shift := by omega
      simp only [hns, if_false, ite_false, and127, Nat.mod_eq_of_lt hv128,
        Nat.shiftLeft_eq, hv128, if_true]
      rw [lor_mod_term v shift w hacc haccw]
      simp
    · have hfuel1 : 1 ≤ fuel := by
        by_contra hf
        have : fuel = 0 := by omega
        subst this
        norm_num at hv
        omega
      simp only [encodeVarintLoop, hv128, if_false, ite_false, List.cons_append,
        readVarint]
      have hns : ¬ 64 ≤ shift := by omega
      have hx : v &&& 127 = v % 128 := and127 v
      have hxlt : v % 128 < 128 := Nat.mod_lt _ (by norm_num)
      have hb : v &&& 127 ||| 128 = v % 128 + 128 := by rw [hx]; exact or128 hxlt
      have hbge : ¬ (v &&& 127 ||| 128) < 128 := by omega
      simp only [hns, if_false, ite_false, hbge]
      have hmask : (v &&& 127 ||| 128) &&& 127 = v % 128 := by
        rw [hb, and127]
        omega
      rw [hmask, Nat.shiftLeft_eq, lor_mod_term (v % 128) shift w hacc haccw]
      have hdiv : v >>> 7 = v / 128 := by
        rw [Nat.shiftRight_eq_div_pow]
      have hv' : v >>> 7 < 2 ^ (7 * fuel) := by
        rw [hdiv]
        have hsplit : 2 ^ (7 * (fuel + 1)) = 128 * 2 ^ (7 * fuel) := by
          rw [show 7 * (fuel + 1) = 7 * fuel + 7 by ring, pow_add]
          ring
        rw [hsplit] at hv
        exact Nat.div_lt_of_lt_mul hv
      have hps : (0 : Nat) < 2 ^ shift := by positivity
      have hmul : v % 128 * 2 ^ shift ≤ 127 * 2 ^ shift :=
        Nat.mul_le_mul_right _ (by omega)
      have hpow7 : 2 ^ (shift + 7) = 2 ^ shift * 128 := by
        rw [pow_add]
        norm_num
      have hacc2 : (acc + v % 128 * 2 ^ shift) % 2 ^ w < 2 ^ (shift + 7) := by
        have h1 : (acc + v % 128 * 2 ^ shift) % 2 ^ w ≤ acc + v % 128 * 2 ^ shift :=
          Nat.mod_le _ _
        omega
      have hacc2w : (acc + v % 128 * 2 ^ shift) % 2 ^ w < 2 ^ w :=
        Nat.mod_lt _ (by positivity)
      rw [ih (v >>> 7) (shift + 7) _ rest hv' (by omega) (by omega) hacc2 hacc2w,
        Nat.mod_add_mod, hdiv, hpow7]
      have hsplitv : 128 * (v / 128) + v % 128 = v := Nat.div_add_mod v 128
      have heq : acc + v % 128 * 2 ^ shift + v / 128 * (2 ^ shift * 128)
          = acc + v * 2 ^ shift := by
        calc acc + v % 128 * 2 ^ shift + v / 128 * (2 ^ shift * 128)
            = acc + (128 * (v / 128) + v % 128) * 2 ^ shift := by ring
          _ = acc + v * 2 ^ shift := by rw [hsplitv]
      rw [heq]

theorem readVarint_encode (w v : Nat) (hv : v < 2 ^ 64) (rest : List Nat) :
    readVarint w (encodeVarintRing v ++ rest) 0 0 = some (v % 2 ^ w, rest) := by
  have h := readVarint_encodeLoop (w := w) 10 v 0 0 rest
    (lt_of_lt_of_le hv (by norm_num)) (by norm_num) (by norm_num)
    (by norm_num) (by positivity)
  simpa [encodeVarintRing] using h

theorem readVarint_encode_lt {w v : Nat} (hv : v < 2 ^ w) (hw : w ≤ 64)
    (rest : List Nat) :
    readVarint w (encodeVarintRing v ++ rest) 0 0 = some (v, rest) := by
  rw [readVarint_encode w v (lt_of_lt_of_le hv (Nat.pow_le_pow_right (by norm_num) hw)) rest,
    Nat.mod_eq_of_lt hv]

theorem sovLoop_eq_length :
    ∀ (fuel v n : Nat), v < 2 ^ (7 * (fuel + 1)) →
      sovRingLoop (fuel + 1) v n = n + (encodeVarintLoop (fuel + 1) v).length := by
  intro fuel
  induction fuel with
  | zero =>
    intro v n hv
    norm_num at hv
    have h7 : v >>> 7 = 0 := by
      rw [Nat.shiftRight_eq_div_pow]
      norm_num
      omega
    simp [sovRingLoop, encodeVarintLoop, h7, show v < 128 by omega]
  | succ fuel ih =>
    intro v n hv
    by_cases hv128 : v < 128
    · have h7 : v >>> 7 = 0 := by
        rw [Nat.shiftRight_eq_div_pow]
        norm_num
        omega
      simp [sovRingLoop, encodeVarintLoop, h7, hv128]
    · have h7 : ¬ v >>> 7 = 0 := by
        rw [Nat.shiftRight_eq_div_pow]
        norm_num
        omega
      have hdiv : v >>> 7 < 2 ^ (7 * (fuel + 1)) := by
        rw [Nat.shiftRight_eq_div_pow]
        have hsplit : 2 ^ (7 * (fuel + 1 + 1)) = 128 * 2 ^ (7 * (fuel + 1)) := by
          rw [show 7 * (fuel + 1 + 1) = 7 * (fuel + 1) + 7 by ring, pow_add]
          ring
        rw [hsplit] at hv
        exact Nat.div_lt_of_lt_mul (by norm_num at hv ⊢; omega)
      have hL : sovRingLoop (fuel + 1 + 1) v n = sovRingLoop (fuel + 1) (v >>> 7) (n + 1) := by
        conv_lhs => rw [sovRingLoop]
        simp [h7]
      have hR : encodeVarintLoop (fuel + 1 + 1) v
          = (v &&& 127 ||| 128) :: encodeVarintLoop (fuel + 1) (v >>> 7) := by
        conv_lhs => rw [encodeVarintLoop]
        simp [hv128]
      rw [hL, hR, ih _ (n + 1) hdiv]
      simp
      omega

theorem sovRing_eq_length {v : Nat} (hv : v < 2 ^ 64) :
    sovRing v = (encodeVarintRing v).length := by
  have h := sovLoop_eq_length 9 v 0 (lt_of_lt_of_le hv (by norm_num))
  simpa [sovRing, encodeVarintRing] using h

theorem goUint64ofInt_lt (x : Int) : goUint64ofInt x < 2 ^ 64 := by
  unfold goUint64ofInt
  have h : ((2 : Int) ^ 64) = 18446744073709551616 := by norm_num
  have h2 : ((2 : Nat) ^ 64) = 18446744073709551616 := by norm_num
  rw [h, h2]
  omega

theorem goInt64ofBits_goUint64ofInt {t : Int} (h1 : -(2 ^ 63) ≤ t) (h2 : t < 2 ^ 63) :
    goInt64ofBits (goUint64ofInt t) = t := by
  unfold goInt64ofBits goUint64ofInt
  have e1 : ((2 : Int) ^ 64) = 18446744073709551616 := by norm_num
  have e2 : ((2 : Nat) ^ 64) = 18446744073709551616 := by norm_num
  have e3 : ((2 : Nat) ^ 63) = 9223372036854775808 := by norm_num
  have e4 : ((2 : Int) ^ 63) = 9223372036854775808 := by norm_num
  rw [e1, e2, e3] at *
  rw [e4] at h1 h2
  split <;> omega

theorem goInt32ofBits_goUint64ofInt {t : Int} (h1 : -(2 ^ 31) ≤ t) (h2 : t < 2 ^ 31) :
    goInt32ofBits (goUint64ofInt t) = t := by
  unfold goInt32ofBits goUint64ofInt
  have e1 : ((2 : Int) ^ 64) = 18446744073709551616 := by norm_num
  have e2 : ((2 : Nat) ^ 32) = 4294967296 := by norm_num
  have e3 : ((2 : Nat) ^ 31) = 2147483648 := by norm_num
  have e4 : ((2 : Int) ^ 32) = 4294967296 := by norm_num
  have e5 : ((2 : Int) ^ 31) = 2147483648 := by norm_num
  rw [e1, e2, e3, e4] at *
  rw [e5] at h1 h2
  split <;> omega

theorem goInt32ofBits_mod (n : Nat) : goInt32ofBits (n % 2 ^ 32) = goInt32ofBits n := by
  unfold goInt32ofBits
  rw [Nat.mod_mod_of_dvd _ (dvd_refl _)]

/-! ## Decoding an encoded descriptor -/

theorem fieldNum_of_tag10 : goInt32ofBits ((10 : Nat) >>> 3) = 1 := by decide

theorem fieldNum_of_tag16 : goInt32ofBits ((16 : Nat) >>> 3) = 2 := by decide

theorem fieldNum_of_tag24 : goInt32ofBits ((24 : Nat) >>> 3) = 3 := by decide

theorem fieldNum_of_tag50 : goInt32ofBits ((50 : Nat) >>> 3) = 6 := by decide

theorem fieldNum_of_tag18 : goInt32ofBits ((18 : Nat) >>> 3) = 2 := by decide

theorem ingLoop_cons {m m2 : IngesterDesc} {b : Nat} {bytes r2 : List Nat}
    (h : ingesterDescStep m (b :: bytes) = some (m2, r2)) (fuel : Nat) :
    ingesterDescUnmarshalLoop (fuel + 1) m (b :: bytes) =
      ingesterDescUnmarshalLoop fuel m2 r2 := by
  rw [ingesterDescUnmarshalLoop, h]

theorem ingStep_addr {a : List Nat} (hlen : a.length < 2 ^ 63)
    (m : IngesterDesc) (rest : List Nat) :
    ingesterDescStep m ((10 :: encodeVarintRing a.length ++ a) ++ rest) =
      some ({ m with Addr := a }, rest) := by
  have hbytes : (10 :: encodeVarintRing a.length ++ a) ++ rest
      = 10 :: (encodeVarintRing a.length ++ (a ++ rest)) := by simp
  rw [hbytes]
  unfold ingesterDescStep
  rw [show readVarint 64 (10 :: (encodeVarintRing a.length ++ (a ++ rest))) 0 0
      = some (10, encodeVarintRing a.length ++ (a ++ rest)) from rfl]
  dsimp only
  rw [if_neg (show ¬ ((10 : Nat) &&& 7) = 4 by decide),
    if_neg (show ¬ goInt32ofBits ((10 : Nat) >>> 3) ≤ 0 by decide),
    if_pos (show goInt32ofBits ((10 : Nat) >>> 3) = 1 by decide),
    if_neg (show ¬ ((10 : Nat) &&& 7) ≠ 2 by decide),
    readVarint_encode_lt (lt_of_lt_of_le hlen (by norm_num)) (by norm_num) (a ++ rest)]
  dsimp only
  rw [if_neg (show ¬ 2 ^ 63 ≤ a.length by omega),
    if_neg (show ¬ (a ++ rest).length < a.length by simp),
    List.take_left, List.drop_left]

theorem encodeVarintRing_ne_nil (v : Nat) : encodeVarintRing v ≠ [] := by
  unfold encodeVarintRing encodeVarintLoop
  split <;> simp

theorem ingStep_timestamp {t : Int} (h1 : -(2 ^ 63) ≤ t) (h2 : t < 2 ^ 63)
    (m : IngesterDesc) (rest : List Nat) :
    ingesterDescStep m ((16 :: encodeVarintRing (goUint64ofInt t)) ++ rest) =
      some ({ m with Timestamp := t }, rest) := by
  have hbytes : (16 :: encodeVarintRing (goUint64ofInt t)) ++ rest
      = 16 :: (encodeVarintRing (goUint64ofInt t) ++ rest) := by simp
  rw [hbytes]
  unfold ingesterDescStep
  rw [show readVarint 64 (16 :: (encodeVarintRing (goUint64ofInt t) ++ rest)) 0 0
      = some (16, encodeVarintRing (goUint64ofInt t) ++ rest) from rfl]
  dsimp only
  rw [if_neg (show ¬ ((16 : Nat) &&& 7) = 4 by decide),
    if_neg (show ¬ goInt32ofBits ((16 : Nat) >>> 3) ≤ 0 by decide),
    if_neg (show ¬ goInt32ofBits ((16 : Nat) >>> 3) = 1 by decide),
    if_pos (show goInt32ofBits ((16 : Nat) >>> 3) = 2 by decide),
    if_neg (show ¬ ((16 : Nat) &&& 7) ≠ 0 by decide),
    readVarint_encode_lt (goUint64ofInt_lt t) (by norm_num) rest]
  dsimp only
  rw [goInt64ofBits_goUint64ofInt h1 h2]

theorem ingStep_state {st : Int} (h1 : -(2 ^ 31) ≤ st) (h2 : st < 2 ^ 31)
    (m : IngesterDesc) (rest : List Nat) :
    ingesterDescStep m ((24 :: encodeVarintRing (goUint64ofInt st)) ++ rest) =
      some ({ m with State := st }, rest) := by
  have hbytes : (24 :: encodeVarintRing (goUint64ofInt st)) ++ rest
      = 24 :: (encodeVarintRing (goUint64ofInt st) ++ rest) := by simp
  rw [hbytes]
  unfold ingesterDescStep
  rw [show readVarint 64 (24 :: (encodeVarintRing (goUint64ofInt st) ++ rest)) 0 0
      = some (24, encodeVarintRing (goUint64ofInt st) ++ rest) from rfl]
  dsimp only
  rw [if_neg (show ¬ ((24 : Nat) &&& 7) = 4 by decide),
    if_neg (show ¬ goInt32ofBits ((24 : Nat) >>> 3) ≤ 0 by decide),
    if_neg (show ¬ goInt32ofBits ((24 : Nat) >>> 3) = 1 by decide),
    if_neg (show ¬ goInt32ofBits ((24 : Nat) >>> 3) = 2 by decide),
    if_pos (show goInt32ofBits ((24 : Nat) >>> 3) = 3 by decide),
    if_neg (show ¬ ((24 : Nat) &&& 7) ≠ 0 by decide),
    readVarint_encode 32 (goUint64ofInt st) (goUint64ofInt_lt st) rest]
  dsimp only
  rw [goInt32ofBits_mod, goInt32ofBits_goUint64ofInt h1 h2]

theorem tokensLoop_encode {toks : List Nat} (htoks : ∀ t ∈ toks, t < 2 ^ 32) :
    ∀ (fuel : Nat) (acc : List Nat),
      tokensLoop (fuel + toks.length) acc ((toks.map encodeVarintRing).flatten) =
        some (acc ++ toks) := by
  induction toks with
  | nil => intro fuel acc; simp [tokensLoop]
  | cons t toks ih =>
    intro fuel acc
    obtain ⟨b, bs, hb⟩ : ∃ b bs, encodeVarintRing t = b :: bs := by
      cases henc : encodeVarintRing t with
      | nil => exact absurd henc (encodeVarintRing_ne_nil t)
      | cons b bs => exact ⟨b, bs, rfl⟩
    have hflat : ((t :: toks).map encodeVarintRing).flatten
        = b :: (bs ++ (toks.map encodeVarintRing).flatten) := by
      simp [hb]
    have hfuel : fuel + (t :: toks).length = (fuel + toks.length) + 1 := by
      simp
      ring
    rw [hflat, hfuel, tokensLoop]
    rw [show b :: (bs ++ (toks.map encodeVarintRing).flatten)
        = encodeVarintRing t ++ (toks.map encodeVarintRing).flatten from by simp [hb],
      readVarint_encode_lt (htoks t (by simp)) (by norm_num)]
    dsimp only
    rw [ih (fun x hx => htoks x (by simp [hx])) fuel (acc ++ [t])]
    simp

theorem packed_length_eq {toks : List Nat} (htoks : ∀ t ∈ toks, t < 2 ^ 32) :
    ((toks.map encodeVarintRing).flatten).length = (toks.map sovRing).sum := by
  rw [List.length_flatten, List.map_map]
  congr 1
  apply List.map_congr_left
  intro t ht
  exact (sovRing_eq_length (lt_of_lt_of_le (htoks t ht) (by norm_num))).symm

theorem token_count_le_packed (toks : List Nat) :
    toks.length ≤ ((toks.map encodeVarintRing).flatten).length := by
  induction toks with
  | nil => simp
  | cons t toks ih =>
    simp only [List.map_cons, List.flatten_cons, List.length_append, List.length_cons]
    have hne := encodeVarintRing_ne_nil t
    have h1 : 1 ≤ (encodeVarintRing t).length := by
      cases h : encodeVarintRing t
      · exact absurd h hne
      · simp
    omega

theorem ingStep_tokens {toks : List Nat} (htoks : ∀ t ∈ toks, t < 2 ^ 32)
    (hplen : ((toks.map encodeVarintRing).flatten).length < 2 ^ 63)
    (m : IngesterDesc) (rest : List Nat) :
    ingesterDescStep m
      ((50 :: encodeVarintRing ((toks.map encodeVarintRing).flatten).length
        ++ (toks.map encodeVarintRing).flatten) ++ rest) =
      some ({ m with Tokens := m.Tokens ++ toks }, rest) := by
  have hbytes : (50 :: encodeVarintRing ((toks.map encodeVarintRing).flatten).length
      ++ (toks.map encodeVarintRing).flatten) ++ rest
      = 50 :: (encodeVarintRing ((toks.map encodeVarintRing).flatten).length
        ++ ((toks.map encodeVarintRing).flatten ++ rest)) := by simp
  rw [hbytes]
  unfold ingesterDescStep
  rw [show readVarint 64 (50 :: (encodeVarintRing ((toks.map encodeVarintRing).flatten).length
      ++ ((toks.map encodeVarintRing).flatten ++ rest))) 0 0
      = some (50, encodeVarintRing ((toks.map encodeVarintRing).flatten).length
        ++ ((toks.map encodeVarintRing).flatten ++ rest)) from rfl]
  dsimp only
  rw [if_neg (show ¬ ((50 : Nat) &&& 7) = 4 by decide),
    if_neg (show ¬ goInt32ofBits ((50 : Nat) >>> 3) ≤ 0 by decide),
    if_neg (show ¬ goInt32ofBits ((50 : Nat) >>> 3) = 1 by decide),
    if_neg (show ¬ goInt32ofBits ((50 : Nat) >>> 3) = 2 by decide),
    if_neg (show ¬ goInt32ofBits ((50 : Nat) >>> 3) = 3 by decide),
    if_pos (show goInt32ofBits ((50 : Nat) >>> 3) = 6 by decide),
    if_neg (show ¬ ((50 : Nat) &&& 7) = 0 by decide),
    if_pos (show ((50 : Nat) &&& 7) = 2 by decide),
    readVarint_encode_lt (lt_of_lt_of_le hplen (by norm_num)) (by norm_num)]
  dsimp only
  rw [if_neg (show ¬ 2 ^ 63 ≤ ((toks.map encodeVarintRing).flatten).length by omega),
    if_neg (show ¬ ((toks.map encodeVarintRing).flatten ++ rest).length
      < ((toks.map encodeVarintRing).flatten).length by simp),
    List.take_left, List.drop_left]
  have hcount := token_count_le_packed toks
  have hfe : ((toks.map encodeVarintRing).flatten).length + 1
      = (((toks.map encodeVarintRing).flatten).length + 1 - toks.length) + toks.length := by
    omega
  rw [hfe, tokensLoop_encode htoks _ m.Tokens]

theorem ingPhase_addr (A : List Nat) (hlen : A.length < 2 ^ 63) (fuel : Nat)
    (m : IngesterDesc) (rest : List Nat) :
    ingesterDescUnmarshalLoop (fuel + (if A.length > 0 then 1 else 0)) m
      ((if A.length > 0 then 10 :: encodeVarintRing A.length ++ A else []) ++ rest) =
      ingesterDescUnmarshalLoop fuel
        (if A.length > 0 then { m with Addr := A } else m) rest := by
  by_cases hA : A.length > 0
  · have h := ingStep_addr hlen m rest
    simp only [List.cons_append, List.append_assoc] at h
    simp only [if_pos hA, List.cons_append, List.append_assoc]
    exact ingLoop_cons h fuel
  · simp [hA]

theorem ingPhase_timestamp (T : Int) (h1 : -(2 ^ 63) ≤ T) (h2 : T < 2 ^ 63)
    (fuel : Nat) (m : IngesterDesc) (rest : List Nat) :
    ingesterDescUnmarshalLoop (fuel + (if T ≠ 0 then 1 else 0)) m
      ((if T ≠ 0 then 16 :: encodeVarintRing (goUint64ofInt T) else []) ++ rest) =
      ingesterDescUnmarshalLoop fuel
        (if T ≠ 0 then { m with Timestamp := T } else m) rest := by
  by_cases hT : T ≠ 0
  · have h := ingStep_timestamp h1 h2 m rest
    simp only [List.cons_append, List.append_assoc] at h
    simp only [if_pos hT, List.cons_append, List.append_assoc]
    exact ingLoop_cons h fuel
  · simp [hT]

theorem ingPhase_state (S : Int) (h1 : -(2 ^ 31) ≤ S) (h2 : S < 2 ^ 31)
    (fuel : Nat) (m : IngesterDesc) (rest : List Nat) :
    ingesterDescUnmarshalLoop (fuel + (if S ≠ 0 then 1 else 0)) m
      ((if S ≠ 0 then 24 :: encodeVarintRing (goUint64ofInt S) else []) ++ rest) =
      ingesterDescUnmarshalLoop fuel
        (if S ≠ 0 then { m with State := S } else m) rest := by
  by_cases hS : S ≠ 0
  · have h := ingStep_state h1 h2 m rest
    simp only [List.cons_append, List.append_assoc] at h
    simp only [if_pos hS, List.cons_append, List.append_assoc]
    exact ingLoop_cons h fuel
  · simp [hS]

theorem ingPhase_tokens (K : List Nat) (htoks : ∀ t ∈ K, t < 2 ^ 32)
    (hplen : ((K.map encodeVarintRing).flatten).length < 2 ^ 63)
    (fuel : Nat) (m : IngesterDesc) (rest : List Nat) :
    ingesterDescUnmarshalLoop (fuel + (if K ≠ [] then 1 else 0)) m
      ((if K ≠ [] then
          50 :: encodeVarintRing ((K.map encodeVarintRing).flatten.length)
            ++ (K.map encodeVarintRing).flatten
        else []) ++ rest) =
      ingesterDescUnmarshalLoop fuel
        (if K ≠ [] then { m with Tokens := m.Tokens ++ K } else m) rest := by
  by_cases hK : K ≠ []
  · have h := ingStep_tokens htoks hplen m rest
    simp only [List.cons_append, List.append_assoc] at h
    simp only [if_pos hK, List.cons_append, List.append_assoc]
    exact ingLoop_cons h fuel
  · simp [hK]

theorem ingLoop_marshal {v : IngesterDesc} (h : WFIngesterDesc v) (fuel : Nat) :
    ingesterDescUnmarshalLoop (fuel + ingIter v) zeroIngesterDesc v.marshal = some v := by
  obtain ⟨hbytes, hlen, ⟨ht1, ht2⟩, ⟨hs1, hs2⟩, htk, hsum⟩ := h
  obtain ⟨A, T, S, K⟩ := v
  simp only [IngesterDesc.marshal, ingIter] at *
  have hplen : ((K.map encodeVarintRing).flatten).length < 2 ^ 63 := by
    rw [packed_length_eq htk]
    exact hsum
  rw [show ((if A.length > 0 then 10 :: encodeVarintRing A.length ++ A else [])
        ++ (if T ≠ 0 then 16 :: encodeVarintRing (goUint64ofInt T) else [])
        ++ (if S ≠ 0 then 24 :: encodeVarintRing (goUint64ofInt S) else [])
        ++ (if K ≠ [] then
              50 :: encodeVarintRing ((K.map encodeVarintRing).flatten.length)
                ++ (K.map encodeVarintRing).flatten
            else []))
      = (if A.length > 0 then 10 :: encodeVarintRing A.length ++ A else [])
        ++ ((if T ≠ 0 then 16 :: encodeVarintRing (goUint64ofInt T) else [])
        ++ ((if S ≠ 0 then 24 :: encodeVarintRing (goUint64ofInt S) else [])
        ++ ((if K ≠ [] then
              50 :: encodeVarintRing ((K.map encodeVarintRing).flatten.length)
                ++ (K.map encodeVarintRing).flatten
            else []) ++ []))) from by simp]
  rw [show fuel + ((if A.length > 0 then 1 else 0) + (if T ≠ 0 then 1 else 0)
        + (if S ≠ 0 then 1 else 0) + (if K ≠ [] then 1 else 0))
      = (((fuel + (if K ≠ [] then 1 else 0)) + (if S ≠ 0 then 1 else 0))
          + (if T ≠ 0 then 1 else 0)) + (if A.length > 0 then 1 else 0) from by ring]
  rw [ingPhase_addr A hlen _ _ _, ingPhase_timestamp T ht1 ht2 _ _ _,
    ingPhase_state S hs1 hs2 _ _ _, ingPhase_tokens K htk hplen _ _ _]
  rw [show ∀ m : IngesterDesc, ingesterDescUnmarshalLoop fuel m [] = some m from
    fun m => by cases fuel <;> rfl]
  split_ifs <;> simp_all [zeroIngesterDesc]

theorem one_le_encodeVarintRing_length (v : Nat) : 1 ≤ (encodeVarintRing v).length := by
  cases h : encodeVarintRing v
  · exact absurd h (encodeVarintRing_ne_nil v)
  · simp

theorem ingIter_le_marshal_length (v : IngesterDesc) :
    ingIter v ≤ (IngesterDesc.marshal v).length := by
  obtain ⟨A, T, S, K⟩ := v
  have g1 := one_le_encodeVarintRing_length A.length
  have g2 := one_le_encodeVarintRing_length (goUint64ofInt T)
  have g3 := one_le_encodeVarintRing_length (goUint64ofInt S)
  have g4 := one_le_encodeVarintRing_length ((K.map encodeVarintRing).flatten.length)
  simp only [IngesterDesc.marshal, ingIter, List.length_append]
  split_ifs <;> simp <;> omega

theorem ing_unmarshal_marshal {v : IngesterDesc} (h : WFIngesterDesc v) :
    IngesterDesc.unmarshal v.marshal = some v := by
  unfold IngesterDesc.unmarshal
  have hiter := ingIter_le_marshal_length v
  rw [show (IngesterDesc.marshal v).length + 1
      = ((IngesterDesc.marshal v).length + 1 - ingIter v) + ingIter v from by omega]
  exact ingLoop_marshal h _

theorem encodeVarintLoop_length_le :
    ∀ (fuel v : Nat), (encodeVarintLoop fuel v).length ≤ fuel + 1 := by
  intro fuel
  induction fuel with
  | zero => intro v; simp [encodeVarintLoop]
  | succ fuel ih =>
    intro v
    rw [encodeVarintLoop]
    split
    · simp
    · have := ih (v >>> 7)
      simp only [List.length_cons]
      omega

theorem sovRing_le_eleven {v : Nat} (hv : v < 2 ^ 64) : sovRing v ≤ 11 := by
  rw [sovRing_eq_length hv]
  have := encodeVarintLoop_length_le 10 v
  simpa [encodeVarintRing] using this

theorem ing_size_eq {v : IngesterDesc} (h : WFIngesterDesc v) :
    v.size = v.marshal.length := by
  obtain ⟨hbytes, hlen, ⟨ht1, ht2⟩, ⟨hs1, hs2⟩, htk, hsum⟩ := h
  obtain ⟨A, T, S, K⟩ := v
  simp only at hlen htk hsum
  have e1 : sovRing A.length = (encodeVarintRing A.length).length :=
    sovRing_eq_length (lt_of_lt_of_le hlen (by norm_num))
  have e2 : sovRing (goUint64ofInt T) = (encodeVarintRing (goUint64ofInt T)).length :=
    sovRing_eq_length (goUint64ofInt_lt T)
  have e3 : sovRing (goUint64ofInt S) = (encodeVarintRing (goUint64ofInt S)).length :=
    sovRing_eq_length (goUint64ofInt_lt S)
  have e4 : sovRing ((K.map sovRing).sum) = (encodeVarintRing ((K.map sovRing).sum)).length :=
    sovRing_eq_length (lt_of_lt_of_le hsum (by norm_num))
  have hpack : ((K.map encodeVarintRing).flatten).length = (K.map sovRing).sum :=
    packed_length_eq htk
  simp only [IngesterDesc.size, IngesterDesc.marshal, List.length_append, hpack]
  split_ifs <;> simp_all <;> omega

theorem entryLoop_cons {k k2 : List Nat} {v v2 : IngesterDesc} {b : Nat}
    {bytes r2 : List Nat}
    (h : descEntryStep k v (b :: bytes) = some (k2, v2, r2)) (fuel : Nat) :
    descEntryLoop (fuel + 1) k v (b :: bytes) = descEntryLoop fuel k2 v2 r2 := by
  rw [descEntryLoop, h]

theorem entryStep_key {k : List Nat} (hklen : k.length < 2 ^ 61)
    (v0 : IngesterDesc) (rest : List Nat) :
    descEntryStep [] v0 ((10 :: encodeVarintRing k.length ++ k) ++ rest) =
      some (k, v0, rest) := by
  have hbytes : (10 :: encodeVarintRing k.length ++ k) ++ rest
      = 10 :: (encodeVarintRing k.length ++ (k ++ rest)) := by simp
  rw [hbytes]
  unfold descEntryStep
  rw [show readVarint 64 (10 :: (encodeVarintRing k.length ++ (k ++ rest))) 0 0
      = some (10, encodeVarintRing k.length ++ (k ++ rest)) from rfl]
  dsimp only
  rw [if_pos (show goInt32ofBits ((10 : Nat) >>> 3) = 1 by decide),
    readVarint_encode_lt (lt_of_lt_of_le hklen (by norm_num)) (by norm_num) (k ++ rest)]
  dsimp only
  rw [if_neg (show ¬ 2 ^ 63 ≤ k.length by omega),
    if_neg (show ¬ (k ++ rest).length < k.length by simp),
    List.take_left, List.drop_left]

theorem entryStep_value {v : IngesterDesc} (h : WFIngesterDesc v)
    (hvsize : v.size < 2 ^ 61) (k : List Nat) (v0 : IngesterDesc) (rest : List Nat) :
    descEntryStep k v0 ((18 :: encodeVarintRing v.size ++ v.marshal) ++ rest) =
      some (k, v, rest) := by
  have hbytes : (18 :: encodeVarintRing v.size ++ v.marshal) ++ rest
      = 18 :: (encodeVarintRing v.size ++ (v.marshal ++ rest)) := by simp
  rw [hbytes]
  unfold descEntryStep
  rw [show readVarint 64 (18 :: (encodeVarintRing v.size ++ (v.marshal ++ rest))) 0 0
      = some (18, encodeVarintRing v.size ++ (v.marshal ++ rest)) from rfl]
  dsimp only
  rw [if_neg (show ¬ goInt32ofBits ((18 : Nat) >>> 3) = 1 by decide),
    if_pos (show goInt32ofBits ((18 : Nat) >>> 3) = 2 by decide),
    readVarint_encode_lt (lt_of_lt_of_le hvsize (by norm_num)) (by norm_num)
      (v.marshal ++ rest)]
  dsimp only
  have hsz := ing_size_eq h
  rw [if_neg (show ¬ 2 ^ 63 ≤ v.size by omega),
    if_neg (show ¬ (v.marshal ++ rest).length < v.size by simp [hsz]),
    List.take_left' hsz.symm, List.drop_left' hsz.symm, ing_unmarshal_marshal h]

theorem entryLoop_pair {k : List Nat} {v : IngesterDesc} (hklen : k.length < 2 ^ 61)
    (h : WFIngesterDesc v) (hvsize : v.size < 2 ^ 61) (fuel : Nat) :
    descEntryLoop (fuel + 2) [] zeroIngesterDesc
      ((10 :: encodeVarintRing k.length ++ k)
        ++ (18 :: encodeVarintRing v.size ++ v.marshal)) = some (k, v) := by
  have h1 := entryStep_key hklen zeroIngesterDesc
    (18 :: encodeVarintRing v.size ++ v.marshal)
  have h2 := entryStep_value h hvsize k zeroIngesterDesc []
  simp only [List.cons_append, List.append_assoc, List.append_nil] at h1 h2 ⊢
  rw [show fuel + 2 = (fuel + 1) + 1 from by ring, entryLoop_cons h1, entryLoop_cons h2]
  cases fuel <;> rfl

theorem descLoop_cons {es es2 : List (List Nat × IngesterDesc)} {b : Nat}
    {bytes r2 : List Nat}
    (h : descStep es (b :: bytes) = some (es2, r2)) (fuel : Nat) :
    descUnmarshalLoop (fuel + 1) es (b :: bytes) = descUnmarshalLoop fuel es2 r2 := by
  rw [descUnmarshalLoop, h]

theorem descStep_entry {kv : List Nat × IngesterDesc} (h : WFEntry kv)
    (es : List (List Nat × IngesterDesc)) (rest : List Nat) :
    descStep es (descEntryBytes kv ++ rest) =
      some (goMapInsert es kv.1 kv.2, rest) := by
  obtain ⟨k, v⟩ := kv
  obtain ⟨hkbytes, hklen, hWF, hvsize⟩ := h
  dsimp only at hkbytes hklen hWF hvsize
  have hsovk : sovRing k.length = (encodeVarintRing k.length).length :=
    sovRing_eq_length (lt_of_lt_of_le hklen (by norm_num))
  have hsovv : sovRing v.size = (encodeVarintRing v.size).length :=
    sovRing_eq_length (lt_of_lt_of_le hvsize (by norm_num))
  have hsz := ing_size_eq hWF
  have hsovkle : sovRing k.length ≤ 11 :=
    sovRing_le_eleven (lt_of_lt_of_le hklen (by norm_num))
  have hsovvle : sovRing v.size ≤ 11 :=
    sovRing_le_eleven (lt_of_lt_of_le hvsize (by norm_num))
  have henc : ((10 :: encodeVarintRing k.length ++ k)
        ++ (18 :: encodeVarintRing v.size ++ v.marshal)).length
      = 1 + k.length + (encodeVarintRing k.length).length
        + (v.marshal.length + 1 + (encodeVarintRing v.size).length) := by
    simp only [List.length_append, List.length_cons]
    omega
  have hplm : ((10 :: encodeVarintRing k.length ++ k)
        ++ (18 :: encodeVarintRing v.size ++ v.marshal)).length
      = 1 + k.length + sovRing k.length + (v.size + 1 + sovRing v.size) := by
    omega
  have hms : 1 + k.length + sovRing k.length + (v.size + 1 + sovRing v.size)
      < 2 ^ 63 := by omega
  have hbytes : descEntryBytes (k, v) ++ rest
      = 10 :: (encodeVarintRing
            (1 + k.length + sovRing k.length + (v.size + 1 + sovRing v.size))
          ++ (((10 :: encodeVarintRing k.length ++ k)
            ++ (18 :: encodeVarintRing v.size ++ v.marshal)) ++ rest)) := by
    simp [descEntryBytes]
  rw [hbytes]
  unfold descStep
  rw [show readVarint 64 (10 :: (encodeVarintRing
        (1 + k.length + sovRing k.length + (v.size + 1 + sovRing v.size))
      ++ (((10 :: encodeVarintRing k.length ++ k)
        ++ (18 :: encodeVarintRing v.size ++ v.marshal)) ++ rest))) 0 0
      = some (10, encodeVarintRing
          (1 + k.length + sovRing k.length + (v.size + 1 + sovRing v.size))
        ++ (((10 :: encodeVarintRing k.length ++ k)
          ++ (18 :: encodeVarintRing v.size ++ v.marshal)) ++ rest)) from rfl]
  dsimp only
  rw [if_neg (show ¬ ((10 : Nat) &&& 7) = 4 by decide),
    if_neg (show ¬ goInt32ofBits ((10 : Nat) >>> 3) ≤ 0 by decide),
    if_pos (show goInt32ofBits ((10 : Nat) >>> 3) = 1 by decide),
    if_neg (show ¬ ((10 : Nat) &&& 7) ≠ 2 by decide),
    readVarint_encode_lt (lt_of_lt_of_le hms (by norm_num)) (by norm_num)]
  dsimp only
  have hbound : ¬ (((10 :: encodeVarintRing k.length ++ k)
        ++ (18 :: encodeVarintRing v.size ++ v.marshal)) ++ rest).length
      < 1 + k.length + sovRing k.length + (v.size + 1 + sovRing v.size) := by
    rw [List.length_append ((10 :: encodeVarintRing k.length ++ k)
      ++ (18 :: encodeVarintRing v.size ++ v.marshal)) rest, hplm]
    omega
  rw [if_neg (show ¬ 2 ^ 63 ≤ 1 + k.length + sovRing k.length
      + (v.size + 1 + sovRing v.size) by omega),
    if_neg hbound, List.take_left' hplm, List.drop_left' hplm]
  have hfe : 1 + k.length + sovRing k.length + (v.size + 1 + sovRing v.size) + 1
      = (k.length + sovRing k.length + v.size + sovRing v.size + 1) + 2 := by ring
  rw [hfe, entryLoop_pair hklen hWF hvsize]

theorem descEntryBytes_ne_nil (kv : List Nat × IngesterDesc) :
    descEntryBytes kv ≠ [] := by
  simp [descEntryBytes]

theorem goMapInsert_append {es : List (List Nat × IngesterDesc)} {k : List Nat}
    {v : IngesterDesc} (h : ∀ kv ∈ es, kv.1 ≠ k) :
    goMapInsert es k v = es ++ [(k, v)] := by
  induction es with
  | nil => rfl
  | cons kv0 es ih =>
    have hne : kv0.1 ≠ k := h kv0 (by simp)
    obtain ⟨k0, v0⟩ := kv0
    simp only [goMapInsert, if_neg hne, List.cons_append, List.cons.injEq, true_and]
    exact ih fun kv hkv => h kv (by simp [hkv])

theorem entries_count_le (es : List (List Nat × IngesterDesc)) :
    es.length ≤ ((es.map descEntryBytes).flatten).length := by
  induction es with
  | nil => simp
  | cons kv es ih =>
    simp only [List.map_cons, List.flatten_cons, List.length_append, List.length_cons]
    have hne := descEntryBytes_ne_nil kv
    have h1 : 1 ≤ (descEntryBytes kv).length := by
      cases h : descEntryBytes kv
      · exact absurd h hne
      · simp
    omega

theorem descLoop_entries :
    ∀ (es2 es : List (List Nat × IngesterDesc)) (fuel : Nat),
      (∀ kv ∈ es2, WFEntry kv) →
      ((es ++ es2).map (fun kv => kv.1)).Nodup →
      descUnmarshalLoop (fuel + es2.length) es ((es2.map descEntryBytes).flatten) =
        some ⟨es ++ es2⟩ := by
  intro es2
  induction es2 with
  | nil =>
    intro es fuel _ _
    simp only [List.map_nil, List.flatten_nil, List.append_nil]
    cases fuel <;> rfl
  | cons kv es2 ih =>
    intro es fuel hWF hnd
    obtain ⟨b, bs, hb⟩ : ∃ b bs, descEntryBytes kv = b :: bs := by
      cases h : descEntryBytes kv with
      | nil => exact absurd h (descEntryBytes_ne_nil kv)
      | cons b bs => exact ⟨b, bs, rfl⟩
    have hstep := descStep_entry (hWF kv (by simp)) es ((es2.map descEntryBytes).flatten)
    rw [hb] at hstep
    simp only [List.cons_append] at hstep
    have hflat : ((kv :: es2).map descEntryBytes).flatten
        = b :: (bs ++ (es2.map descEntryBytes).flatten) := by
      simp [hb]
    have hkey : ∀ kv' ∈ es, kv'.1 ≠ kv.1 := by
      intro kv' hkv' heq
      have hmap : ((es ++ kv :: es2).map fun kv => kv.1)
          = (es.map fun kv => kv.1) ++ (kv.1 :: (es2.map fun kv => kv.1)) := by
        simp
      rw [hmap] at hnd
      rcases List.nodup_append.mp hnd with ⟨_, _, hdisj⟩
      exact hdisj (a := kv'.1) (List.mem_map_of_mem _ hkv') (by simp [heq])
    have hins : goMapInsert es kv.1 kv.2 = es ++ [kv] := by
      rw [goMapInsert_append hkey]
    rw [hflat, show fuel + (kv :: es2).length = (fuel + es2.length) + 1 from by
      simp; ring, descLoop_cons hstep, hins]
    have hnd2 : (((es ++ [kv]) ++ es2).map fun kv => kv.1).Nodup := by
      simpa using hnd
    have := ih (es ++ [kv]) fuel (fun kv' hkv' => hWF kv' (by simp [hkv'])) hnd2
    simpa using this

theorem desc_unmarshal_marshal {d : Desc} (h : WFDesc d) :
    Desc.unmarshal d.marshal = some d := by
  obtain ⟨hnd, hWF⟩ := h
  obtain ⟨es⟩ := d
  unfold Desc.unmarshal Desc.marshal
  have hcount := entries_count_le es
  rw [show ((es.map descEntryBytes).flatten).length + 1
      = (((es.map descEntryBytes).flatten).length + 1 - es.length) + es.length from by
    omega]
  have hres := descLoop_entries es [] (((es.map descEntryBytes).flatten).length + 1
    - es.length) hWF (by simpa using hnd)
  simpa using hres

theorem goMapGet_of_mem {es : List (List Nat × IngesterDesc)} {k : List Nat}
    {v : IngesterDesc} (hnd : (es.map fun kv => kv.1).Nodup) (hmem : (k, v) ∈ es) :
    goMapGet es k = v := by
  induction es with
  | nil => cases hmem
  | cons kv0 es ih =>
    obtain ⟨k0, v0⟩ := kv0
    simp only [List.map_cons, List.nodup_cons] at hnd
    rcases List.mem_cons.mp hmem with heq | hmem2
    · obtain ⟨hk, hv⟩ := Prod.mk.injEq .. ▸ heq
      simp only [Prod.mk.injEq] at heq
      simp [goMapGet, heq.1, heq.2]
    · have hk0 : k0 ≠ k := by
        intro he
        exact hnd.1 (he ▸ List.mem_map_of_mem (fun kv => kv.1) hmem2)
      simp only [goMapGet, if_neg hk0]
      exact ih hnd.2 hmem2

theorem ingesterDesc_equalB_refl (v : IngesterDesc) : v.equalB v = true := by
  simp [IngesterDesc.equalB]

theorem desc_equalB_refl {d : Desc} (hnd : (d.Ingesters.map fun kv => kv.1).Nodup) :
    Desc.equalB d d = true := by
  unfold Desc.equalB
  rw [Bool.and_eq_true]
  refine ⟨by simp, ?_⟩
  rw [List.all_eq_true]
  intro kv hkv
  obtain ⟨k, v⟩ := kv
  rw [goMapGet_of_mem hnd hkv]
  exact ingesterDesc_equalB_refl v

/-! ## Field numbers of an encoded descriptor -/

theorem encodeVarintRing_small {v : Nat} (hv : v < 128) : encodeVarintRing v = [v] := by
  unfold encodeVarintRing encodeVarintLoop
  simp [hv]

theorem readVarint_byte {w b : Nat} (hb : b < 128) (rest : List Nat) :
    readVarint w (b :: rest) 0 0 = some (b % 2 ^ w, rest) := by
  have h := readVarint_encode w b (by omega) rest
  rwa [encodeVarintRing_small hb, List.cons_append, List.nil_append] at h

theorem scanLoop_cons {acc : List Nat} {b fn : Nat} {bytes r2 : List Nat}
    (h : fieldScanStep (b :: bytes) = some (fn, r2)) (fuel : Nat) :
    fieldScanLoop (fuel + 1) acc (b :: bytes) = fieldScanLoop fuel (acc ++ [fn]) r2 := by
  rw [fieldScanLoop, h]

theorem fieldScanStep_varint {tag : Nat} (htag : tag < 128) (hw : tag &&& 7 = 0)
    {V : Nat} (hV : V < 2 ^ 64) (rest : List Nat) :
    fieldScanStep ((tag :: encodeVarintRing V) ++ rest) = some (tag >>> 3, rest) := by
  have hbytes : (tag :: encodeVarintRing V) ++ rest
      = tag :: (encodeVarintRing V ++ rest) := by simp
  rw [hbytes]
  unfold fieldScanStep
  rw [readVarint_byte htag, Nat.mod_eq_of_lt (by omega : tag < 2 ^ 64)]
  dsimp only
  rw [if_pos hw, readVarint_encode_lt hV (by norm_num) rest]

theorem fieldScanStep_ld {tag : Nat} (htag : tag < 128) (hw : tag &&& 7 = 2)
    (payload : List Nat) (hplen : payload.length < 2 ^ 64) (rest : List Nat) :
    fieldScanStep ((tag :: encodeVarintRing payload.length ++ payload) ++ rest) =
      some (tag >>> 3, rest) := by
  have hbytes : (tag :: encodeVarintRing payload.length ++ payload) ++ rest
      = tag :: (encodeVarintRing payload.length ++ (payload ++ rest)) := by simp
  rw [hbytes]
  unfold fieldScanStep
  rw [readVarint_byte htag, Nat.mod_eq_of_lt (by omega : tag < 2 ^ 64)]
  dsimp only
  rw [if_neg (show ¬ tag &&& 7 = 0 by omega), if_pos hw,
    readVarint_encode_lt hplen (by norm_num) (payload ++ rest)]
  dsimp only
  rw [if_neg (show ¬ (payload ++ rest).length < payload.length by simp),
    List.drop_left]

theorem scanLoop_ge {B acc : List Nat} {res : Option (List Nat)} {n : Nat}
    (h : ∀ fuel, fieldScanLoop (fuel + n) acc B = res) (hn : n ≤ B.length + 1) :
    fieldScanLoop (B.length + 1) acc B = res := by
  have h2 := h (B.length + 1 - n)
  rwa [Nat.sub_add_cancel hn] at h2

theorem fieldNums_marshal {v : IngesterDesc} (h : WFIngesterDesc v)
    (hA : v.Addr ≠ []) (hT : v.Timestamp ≠ 0) (hS : v.State ≠ 0)
    (hK : v.Tokens ≠ []) :
    fieldNums v.marshal = some [1, 2, 3, 6] := by
  obtain ⟨hby, hlen, ⟨ht1, ht2⟩, ⟨hs1, hs2⟩, htk, hsum⟩ := h
  obtain ⟨A, T, S, K⟩ := v
  simp only at hA hT hS hK hlen htk hsum
  have hplen : ((K.map encodeVarintRing).flatten).length < 2 ^ 63 := by
    rw [packed_length_eq htk]
    exact hsum
  have hApos : A.length > 0 := List.length_pos.mpr hA
  have g1 := one_le_encodeVarintRing_length A.length
  have g2 := one_le_encodeVarintRing_length (goUint64ofInt T)
  have g3 := one_le_encodeVarintRing_length (goUint64ofInt S)
  have g4 := one_le_encodeVarintRing_length ((K.map encodeVarintRing).flatten.length)
  unfold fieldNums
  simp only [IngesterDesc.marshal, if_pos hApos, if_pos hT, if_pos hS, if_pos hK]
  rw [show (10 :: encodeVarintRing A.length ++ A)
        ++ (16 :: encodeVarintRing (goUint64ofInt T))
        ++ (24 :: encodeVarintRing (goUint64ofInt S))
        ++ (50 :: encodeVarintRing ((K.map encodeVarintRing).flatten.length)
            ++ (K.map encodeVarintRing).flatten)
      = (10 :: encodeVarintRing A.length ++ A)
        ++ ((16 :: encodeVarintRing (goUint64ofInt T))
        ++ ((24 :: encodeVarintRing (goUint64ofInt S))
        ++ ((50 :: encodeVarintRing ((K.map encodeVarintRing).flatten.length)
            ++ (K.map encodeVarintRing).flatten) ++ []))) from by simp]
  have h1 := fieldScanStep_ld (show (10 : Nat) < 128 by norm_num)
    (show (10 : Nat) &&& 7 = 2 by decide) A (lt_of_lt_of_le hlen (by norm_num))
    ((16 :: encodeVarintRing (goUint64ofInt T))
      ++ ((24 :: encodeVarintRing (goUint64ofInt S))
      ++ ((50 :: encodeVarintRing ((K.map encodeVarintRing).flatten.length)
          ++ (K.map encodeVarintRing).flatten) ++ [])))
  have h2 := fieldScanStep_varint (show (16 : Nat) < 128 by norm_num)
    (show (16 : Nat) &&& 7 = 0 by decide) (goUint64ofInt_lt T)
    ((24 :: encodeVarintRing (goUint64ofInt S))
      ++ ((50 :: encodeVarintRing ((K.map encodeVarintRing).flatten.length)
          ++ (K.map encodeVarintRing).flatten) ++ []))
  have h3 := fieldScanStep_varint (show (24 : Nat) < 128 by norm_num)
    (show (24 : Nat) &&& 7 = 0 by decide) (goUint64ofInt_lt S)
    ((50 :: encodeVarintRing ((K.map encodeVarintRing).flatten.length)
        ++ (K.map encodeVarintRing).flatten) ++ [])
  have h4 := fieldScanStep_ld (show (50 : Nat) < 128 by norm_num)
    (show (50 : Nat) &&& 7 = 2 by decide) ((K.map encodeVarintRing).flatten)
    (lt_of_lt_of_le hplen (by norm_num)) []
  simp only [List.cons_append, List.append_assoc, List.append_nil] at h1 h2 h3 h4 ⊢
  apply scanLoop_ge (n := 4)
  · intro fuel
    rw [show fuel + 4 = (((fuel + 1) + 1) + 1) + 1 from by ring]
    rw [scanLoop_cons h1, scanLoop_cons h2, scanLoop_cons h3, scanLoop_cons h4]
    rw [show ∀ (f : Nat) (acc : List Nat), fieldScanLoop f acc [] = some acc from
      fun f acc => by cases f <;> rfl]
    norm_num [Nat.shiftRight_eq_div_pow]
  · simp only [List.length_cons, List.length_append]
    omega

/-! ## Claim theorems: wire format -/

/-- C5: the numeric value of the LEFT instance state in the wire enum is 4,
with ACTIVE = 0, LEAVING = 1, PENDING = 2 and JOINING = 3, as both the
constants and the generated name/value tables record. -/
theorem claim_C5 :
    LEFT = 4 ∧ ACTIVE = 0 ∧ LEAVING = 1 ∧ PENDING = 2 ∧ JOINING = 3 ∧
      ("LEFT", 4) ∈ IngesterState_value ∧ ((4 : Int), "LEFT") ∈ IngesterState_name := by
  decide

/-- C4 counterexample: the serialization of a fully-populated descriptor
(`addr = "a"`, `timestamp = 7`, `state = LEAVING`, `tokens = [1, 300]`)
carries exactly the four fields numbered 1, 2, 3 and 6 — there is no zone
or registered_at field in this descriptor, contradicting the claim that
the record carries six fields including `zone` and `registered_at`. -/
theorem claim_C4_counterexample :
    fieldNums (IngesterDesc.marshal ⟨[97], 7, 1, [1, 300]⟩) = some [1, 2, 3, 6] ∧
      (fieldNums (IngesterDesc.marshal ⟨[97], 7, 1, [1, 300]⟩)).map List.length =
        some 4 := by
  decide

/-- C4 (amended): the serialized `IngesterDesc` record carries exactly the
fields addr (string, field 1), heartbeat timestamp (int64, field 2), state
(enum, field 3) and tokens (packed repeated uint32, field 6); for every
well-formed descriptor with all four fields populated, scanning the
marshalled bytes yields exactly the field numbers [1, 2, 3, 6] — in
particular no zone or registered_at field exists in this version. -/
theorem claim_C4 (v : IngesterDesc) (h : WFIngesterDesc v) (hA : v.Addr ≠ [])
    (hT : v.Timestamp ≠ 0) (hS : v.State ≠ 0) (hK : v.Tokens ≠ []) :
    fieldNums v.marshal = some [1, 2, 3, 6] :=
  fieldNums_marshal h hA hT hS hK

theorem claim_C4_witness :
    (WFIngesterDesc ⟨[97], 7, 1, [1, 300]⟩ ∧ ([97] : List Nat) ≠ [] ∧
        (7 : Int) ≠ 0 ∧ (1 : Int) ≠ 0 ∧ ([1, 300] : List Nat) ≠ []) ∧
      fieldNums (IngesterDesc.marshal ⟨[97], 7, 1, [1, 300]⟩) = some [1, 2, 3, 6] :=
  ⟨⟨by decide, by decide, by decide, by decide, by decide⟩,
    claim_C4 ⟨[97], 7, 1, [1, 300]⟩ (by decide) (by decide) (by decide) (by decide)
      (by decide)⟩

/-- C6: marshalling a well-formed ring descriptor and unmarshalling the
resulting bytes yields a descriptor equal to the original, where equality
is `Desc.Equal` (same instance set; per instance identical addr,
timestamp, state and token sequence).  The decoded value is in fact the
original descriptor itself, and `Desc.Equal` holds of it. -/
theorem claim_C6 (d : Desc) (h : WFDesc d) :
    Desc.unmarshal (Desc.marshal d) = some d ∧ Desc.equalB d d = true :=
  ⟨desc_unmarshal_marshal h, desc_equalB_refl h.1⟩

theorem claim_C6_witness :
    WFDesc ⟨[([107], ⟨[97], 7, 1, [1, 300]⟩), ([108], ⟨[], 0, 0, []⟩)]⟩ ∧
      (Desc.unmarshal (Desc.marshal
          ⟨[([107], ⟨[97], 7, 1, [1, 300]⟩), ([108], ⟨[], 0, 0, []⟩)]⟩) =
        some ⟨[([107], ⟨[97], 7, 1, [1, 300]⟩), ([108], ⟨[], 0, 0, []⟩)]⟩ ∧
      Desc.equalB ⟨[([107], ⟨[97], 7, 1, [1, 300]⟩), ([108], ⟨[], 0, 0, []⟩)]⟩
          ⟨[([107], ⟨[97], 7, 1, [1, 300]⟩), ([108], ⟨[], 0, 0, []⟩)]⟩ = true) :=
  ⟨by decide, claim_C6 _ (by decide)⟩

/-! ## Claim theorems: replication strategies

`defaultFilter_test_rows` and `ignoreUnhealthy_test_rows` replay every row
of `pkg/ring/replication_strategy_test.go` against the model (a live
instance has `Timestamp = now`, a dead one `Timestamp = 0`; `now = 1000`,
`heartbeatTimeout = 100` seconds, `op = Read`, as in the test). -/

theorem defaultFilter_test_rows :
    (defaultFilter (List.replicate 1 ⟨[], 1000, 0, []⟩) Op.Read 1 100 1000 false =
        Except.ok (List.replicate 1 ⟨[], 1000, 0, []⟩, 0)) ∧
      (defaultFilter (List.replicate 1 ⟨[], 0, 0, []⟩) Op.Read 1 100 1000 false =
        Except.error "at least 1 live replicas required, could only find 0") ∧
      (defaultFilter (List.replicate 2 ⟨[], 1000, 0, []⟩) Op.Read 3 100 1000 false =
        Except.ok (List.replicate 2 ⟨[], 1000, 0, []⟩, 0)) ∧
      (defaultFilter (List.replicate 3 ⟨[], 1000, 0, []⟩) Op.Read 3 100 1000 false =
        Except.ok (List.replicate 3 ⟨[], 1000, 0, []⟩, 1)) ∧
      (defaultFilter (List.replicate 2 ⟨[], 1000, 0, []⟩ ++ List.replicate 1 ⟨[], 0, 0, []⟩)
          Op.Read 3 100 1000 false =
        Except.ok (List.replicate 2 ⟨[], 1000, 0, []⟩, 0)) ∧
      (defaultFilter (List.replicate 1 ⟨[], 1000, 0, []⟩ ++ List.replicate 2 ⟨[], 0, 0, []⟩)
          Op.Read 3 100 1000 false =
        Except.error "at least 2 live replicas required, could only find 1") ∧
      (defaultFilter (List.replicate 4 ⟨[], 1000, 0, []⟩) Op.Read 3 100 1000 false =
        Except.ok (List.replicate 4 ⟨[], 1000, 0, []⟩, 1)) ∧
      (defaultFilter (List.replicate 3 ⟨[], 1000, 0, []⟩ ++ List.replicate 1 ⟨[], 0, 0, []⟩)
          Op.Read 3 100 1000 false =
        Except.ok (List.replicate 3 ⟨[], 1000, 0, []⟩, 0)) ∧
      (defaultFilter (List.replicate 2 ⟨[], 1000, 0, []⟩ ++ List.replicate 2 ⟨[], 0, 0, []⟩)
          Op.Read 3 100 1000 false =
        Except.error "at least 3 live replicas required, could only find 2") := by
  decide

theorem ignoreUnhealthy_test_rows :
    (ignoreUnhealthyFilter (List.replicate 1 ⟨[], 1000, 0, []⟩) Op.Read 3 100 1000 false =
        Except.ok (List.replicate 1 ⟨[], 1000, 0, []⟩, 0)) ∧
      (ignoreUnhealthyFilter
          (List.replicate 2 ⟨[], 1000, 0, []⟩ ++ List.replicate 1 ⟨[], 0, 0, []⟩)
          Op.Read 3 100 1000 false =
        Except.ok (List.replicate 2 ⟨[], 1000, 0, []⟩, 1)) ∧
      (ignoreUnhealthyFilter
          (List.replicate 2 ⟨[], 1000, 0, []⟩ ++ List.replicate 2 ⟨[], 0, 0, []⟩)
          Op.Read 3 100 1000 false =
        Except.ok (List.replicate 2 ⟨[], 1000, 0, []⟩, 1)) ∧
      (ignoreUnhealthyFilter (List.replicate 3 ⟨[], 0, 0, []⟩) Op.Read 3 100 1000 false =
        Except.error "at least 1 healthy replica required, could only find 0") := by
  decide

/-- C1 counterexample: with replication factor 3 and four healthy
candidates (none dead), the default strategy returns `maxErrors = 1`
(matching the repository's test), while the claim's formula
`n − (⌊rf/2⌋ + 1)` gives 2 — the required count grew with the candidate
count, contradicting "the required count depends only on rf". -/
theorem claim_C1_counterexample :
    defaultFilter (List.replicate 4 ⟨[], 1000, 0, []⟩) Op.Read 3 100 1000 false =
        Except.ok (List.replicate 4 ⟨[], 1000, 0, []⟩, 1) ∧
      (1 : Nat) ≠ (List.replicate 4 (⟨[], 1000, 0, []⟩ : IngesterDesc)).length
        - (3 / 2 + 1) := by
  decide

/-- C1 (amended): for every candidate list, op and replication factor, the
default strategy requires `⌊max(rf, c)/2⌋ + 1` successes, where `c` is the
candidate count before health filtering; it fails exactly when fewer
healthy candidates than that remain, and otherwise returns the healthy
candidates with `maxErrors = healthy − required`. -/
theorem claim_C1 (ingesters : List IngesterDesc) (op : Op) (rf : Nat)
    (hbt now : Int) (za : Bool) :
    ((∃ e, defaultFilter ingesters op rf hbt now za = Except.error e) ↔
        (ingesters.filter fun i => IsHealthy i op hbt now).length
          < max rf ingesters.length / 2 + 1) ∧
      (max rf ingesters.length / 2 + 1
          ≤ (ingesters.filter fun i => IsHealthy i op hbt now).length →
        defaultFilter ingesters op rf hbt now za =
          Except.ok (ingesters.filter fun i => IsHealthy i op hbt now,
            (ingesters.filter fun i => IsHealthy i op hbt now).length
              - (max rf ingesters.length / 2 + 1))) := by
  have hmax : (if ingesters.length > rf then ingesters.length else rf)
      = max rf ingesters.length := by
    rcases le_total rf ingesters.length with hle | hle
    · rw [max_eq_right hle]
      split <;> omega
    · rw [max_eq_left hle]
      split <;> omega
  unfold defaultFilter
  rw [hmax]
  constructor
  · constructor
    · rintro ⟨e, he⟩
      by_contra hge
      rw [if_neg hge] at he
      cases he
    · intro hlt
      exact ⟨_, by rw [if_pos hlt]⟩
  · intro hge
    rw [if_neg (by omega)]

theorem claim_C1_witness :
    max 3 (List.replicate 4 (⟨[], 1000, 0, []⟩ : IngesterDesc)).length / 2 + 1
        ≤ ((List.replicate 4 (⟨[], 1000, 0, []⟩ : IngesterDesc)).filter fun i =>
          IsHealthy i Op.Read 100 1000).length ∧
      defaultFilter (List.replicate 4 ⟨[], 1000, 0, []⟩) Op.Read 3 100 1000 false =
        Except.ok ((List.replicate 4 (⟨[], 1000, 0, []⟩ : IngesterDesc)).filter fun i =>
            IsHealthy i Op.Read 100 1000,
          ((List.replicate 4 (⟨[], 1000, 0, []⟩ : IngesterDesc)).filter fun i =>
            IsHealthy i Op.Read 100 1000).length
            - (max 3 (List.replicate 4 (⟨[], 1000, 0, []⟩ : IngesterDesc)).length / 2
              + 1)) :=
  ⟨by decide,
    (claim_C1 (List.replicate 4 ⟨[], 1000, 0, []⟩) Op.Read 3 100 1000 false).2
      (by decide)⟩

/-- C2: when the default strategy fails for lack of healthy replicas, the
error is exactly the string "at least <required> live replicas required,
could only find <n>" with the computed required count and the healthy
count substituted. -/
theorem claim_C2 (ingesters : List IngesterDesc) (op : Op) (rf : Nat)
    (hbt now : Int) (za : Bool)
    (h : (ingesters.filter fun i => IsHealthy i op hbt now).length
      < max rf ingesters.length / 2 + 1) :
    defaultFilter ingesters op rf hbt now za =
      Except.error ("at least " ++ toString (max rf ingesters.length / 2 + 1)
        ++ " live replicas required, could only find "
        ++ toString (ingesters.filter fun i => IsHealthy i op hbt now).length) := by
  have hmax : (if ingesters.length > rf then ingesters.length else rf)
      = max rf ingesters.length := by
    rcases le_total rf ingesters.length with hle | hle
    · rw [max_eq_right hle]
      split <;> omega
    · rw [max_eq_left hle]
      split <;> omega
  unfold defaultFilter
  rw [hmax, if_pos h]

/-- C2 witness: for rf = 3 with 1 healthy and 2 dead candidates (Write op)
the error is "at least 2 live replicas required, could only find 1". -/
theorem claim_C2_witness :
    (((⟨[], 1000, 0, []⟩ : IngesterDesc) :: List.replicate 2 ⟨[], 0, 0, []⟩).filter
          fun i => IsHealthy i Op.Write 100 1000).length
        < max 3 ((⟨[], 1000, 0, []⟩ : IngesterDesc)
          :: List.replicate 2 ⟨[], 0, 0, []⟩).length / 2 + 1 ∧
      defaultFilter (⟨[], 1000, 0, []⟩ :: List.replicate 2 ⟨[], 0, 0, []⟩)
          Op.Write 3 100 1000 false =
        Except.error "at least 2 live replicas required, could only find 1" := by
  refine ⟨by decide, ?_⟩
  have h := claim_C2 (⟨[], 1000, 0, []⟩ :: List.replicate 2 ⟨[], 0, 0, []⟩)
    Op.Write 3 100 1000 false (by decide)
  rw [h]
  decide

/-- C3: the ignore-unhealthy strategy requires exactly one success: with at
least one healthy candidate it returns the healthy candidates and
`maxErrors = n − 1` with no error; with none it fails with exactly
"at least 1 healthy replica required, could only find 0". -/
theorem claim_C3 (instances : List IngesterDesc) (op : Op) (rf : Nat)
    (hbt now : Int) (za : Bool) :
    ((instances.filter fun i => IsHealthy i op hbt now).length = 0 →
        ignoreUnhealthyFilter instances op rf hbt now za =
          Except.error "at least 1 healthy replica required, could only find 0") ∧
      (1 ≤ (instances.filter fun i => IsHealthy i op hbt now).length →
        ignoreUnhealthyFilter instances op rf hbt now za =
          Except.ok (instances.filter fun i => IsHealthy i op hbt now,
            (instances.filter fun i => IsHealthy i op hbt now).length - 1)) := by
  unfold ignoreUnhealthyFilter
  constructor
  · intro h0
    rw [if_pos h0]
  · intro h1
    rw [if_neg (by omega)]

theorem claim_C3_witness :
    1 ≤ (((⟨[], 1000, 0, []⟩ : IngesterDesc) :: List.replicate 2 ⟨[], 0, 0, []⟩).filter
        fun i => IsHealthy i Op.Read 100 1000).length ∧
      ignoreUnhealthyFilter (⟨[], 1000, 0, []⟩ :: List.replicate 2 ⟨[], 0, 0, []⟩)
          Op.Read 3 100 1000 false =
        Except.ok ((((⟨[], 1000, 0, []⟩ : IngesterDesc)
            :: List.replicate 2 ⟨[], 0, 0, []⟩).filter fun i =>
              IsHealthy i Op.Read 100 1000),
          ((((⟨[], 1000, 0, []⟩ : IngesterDesc)
            :: List.replicate 2 ⟨[], 0, 0, []⟩).filter fun i =>
              IsHealthy i Op.Read 100 1000)).length - 1) :=
  ⟨by decide,
    (claim_C3 (⟨[], 1000, 0, []⟩ :: List.replicate 2 ⟨[], 0, 0, []⟩)
      Op.Read 3 100 1000 false).2 (by decide)⟩

/-- C10: for both strategies, a descriptor whose heartbeat timestamp is
zero is classified unhealthy whenever the current time exceeds the
heartbeat timeout, for every op, state and replication factor, and is
therefore excluded from any returned replica set (so it can never supply
one of the required successes). -/
theorem claim_C10 (i : IngesterDesc) (ingesters : List IngesterDesc) (op : Op)
    (rf : Nat) (hbt now : Int) (za : Bool) (hts : i.Timestamp = 0)
    (hnow : hbt < now) :
    IsHealthy i op hbt now = false ∧
      (∀ live me, defaultFilter ingesters op rf hbt now za = Except.ok (live, me) →
        i ∉ live) ∧
      (∀ live me, ignoreUnhealthyFilter ingesters op rf hbt now za =
          Except.ok (live, me) → i ∉ live) := by
  have hbad : IsHealthy i op hbt now = false := by
    unfold IsHealthy
    have hlt : ¬ (now - i.Timestamp ≤ hbt) := by omega
    simp [hlt]
  refine ⟨hbad, ?_, ?_⟩
  · intro live me h hmem
    unfold defaultFilter at h
    by_cases hc : (ingesters.filter fun i => IsHealthy i op hbt now).length
        < (if ingesters.length > rf then ingesters.length else rf) / 2 + 1
    · rw [if_pos hc] at h
      cases h
    · rw [if_neg hc] at h
      simp only [Except.ok.injEq, Prod.mk.injEq] at h
      rw [← h.1] at hmem
      have hmem2 := (List.mem_filter.mp hmem).2
      rw [hbad] at hmem2
      cases hmem2
  · intro live me h hmem
    unfold ignoreUnhealthyFilter at h
    by_cases hc : (ingesters.filter fun i => IsHealthy i op hbt now).length = 0
    · rw [if_pos hc] at h
      cases h
    · rw [if_neg hc] at h
      simp only [Except.ok.injEq, Prod.mk.injEq] at h
      rw [← h.1] at hmem
      have hmem2 := (List.mem_filter.mp hmem).2
      rw [hbad] at hmem2
      cases hmem2

theorem claim_C10_witness :
    (⟨[], 0, 0, [] ⟩ : IngesterDesc).Timestamp = 0 ∧ (100 : Int) < 1000 ∧
      (IsHealthy ⟨[], 0, 0, []⟩ Op.Write 100 1000 = false ∧
        (∀ live me, defaultFilter
            (List.replicate 2 ⟨[], 1000, 0, []⟩ ++ [⟨[], 0, 0, []⟩])
            Op.Write 3 100 1000 false = Except.ok (live, me) →
          (⟨[], 0, 0, []⟩ : IngesterDesc) ∉ live) ∧
        (∀ live me, ignoreUnhealthyFilter
            (List.replicate 2 ⟨[], 1000, 0, []⟩ ++ [⟨[], 0, 0, []⟩])
            Op.Write 3 100 1000 false = Except.ok (live, me) →
          (⟨[], 0, 0, []⟩ : IngesterDesc) ∉ live)) :=
  ⟨by decide, by decide,
    claim_C10 ⟨[], 0, 0, []⟩ (List.replicate 2 ⟨[], 1000, 0, []⟩ ++ [⟨[], 0, 0, []⟩])
      Op.Write 3 100 1000 false (by decide) (by decide)⟩

/-! ## Claim theorems: token generation and lifecycler -/

theorem generateLoop_spec :
    ∀ (fuel need : Nat) (used : List Nat) (stream : Nat → Nat) (pos : Nat)
      (acc ts : List Nat),
      generateLoop fuel need used stream pos acc = some ts →
      ∃ fresh, ts = acc ++ fresh ∧ fresh.length = need ∧
        (∀ t ∈ fresh, t ∉ used) ∧ fresh.Nodup := by
  intro fuel
  induction fuel with
  | zero =>
    intro need used stream pos acc ts h
    cases need with
    | zero =>
      simp only [generateLoop, Option.some.injEq] at h
      exact ⟨[], by simp [h], rfl, by simp, List.nodup_nil⟩
    | succ n => cases h
  | succ fuel ih =>
    intro need used stream pos acc ts h
    cases need with
    | zero =>
      simp only [generateLoop, Option.some.injEq] at h
      exact ⟨[], by simp [h], rfl, by simp, List.nodup_nil⟩
    | succ n =>
      rw [generateLoop] at h
      by_cases hc : stream pos % 2 ^ 32 ∈ used
      · rw [if_pos hc] at h
        exact ih (n + 1) used stream (pos + 1) acc ts h
      · rw [if_neg hc] at h
        obtain ⟨fresh2, hts, hlen, hnotin, hnd⟩ :=
          ih n (stream pos % 2 ^ 32 :: used) stream (pos + 1)
            (acc ++ [stream pos % 2 ^ 32]) ts h
        refine ⟨stream pos % 2 ^ 32 :: fresh2, by simp [hts], by simp [hlen], ?_, ?_⟩
        · intro t ht
          rcases List.mem_cons.mp ht with heq | hmem
          · rw [heq]
            exact hc
          · intro habs
            exact hnotin t hmem (List.mem_cons_of_mem _ habs)
        · rw [List.nodup_cons]
          refine ⟨fun habs => ?_, hnd⟩
          exact hnotin _ habs (List.mem_cons_self _ _)

theorem GenerateTokens_spec {k : Nat} {taken : List Nat} {stream : Nat → Nat}
    {fuel : Nat} {ts : List Nat} (h : GenerateTokens k taken stream fuel = some ts) :
    ts.length = k ∧ (∀ t ∈ ts, t ∉ taken) ∧ ts.Nodup := by
  unfold GenerateTokens at h
  by_cases hk : k = 0
  · rw [if_pos hk] at h
    simp only [Option.some.injEq] at h
    subst h
    simp [hk]
  · rw [if_neg hk] at h
    obtain ⟨fresh, hts, hlen, hnotin, hnd⟩ :=
      generateLoop_spec fuel k taken stream 0 [] ts h
    simp only [List.nil_append] at hts
    subst hts
    exact ⟨hlen, hnotin, hnd⟩

/-- C7: whenever token generation completes, it returns exactly `k` tokens,
none of which is in the taken set, and the returned tokens are pairwise
distinct — so successive calls that feed previous results back as the
taken set keep all tokens in the ring globally unique. -/
theorem claim_C7 (k : Nat) (taken : List Nat) (stream : Nat → Nat) (fuel : Nat)
    (ts : List Nat) (h : GenerateTokens k taken stream fuel = some ts) :
    ts.length = k ∧ (∀ t ∈ ts, t ∉ taken) ∧ ts.Nodup :=
  GenerateTokens_spec h

theorem claim_C7_witness :
    GenerateTokens 3 [0] (fun n => n) 10 = some [1, 2, 3] ∧
      ([1, 2, 3] : List Nat).length = 3 ∧
      (∀ t ∈ ([1, 2, 3] : List Nat), t ∉ ([0] : List Nat)) ∧
      ([1, 2, 3] : List Nat).Nodup :=
  ⟨by decide, claim_C7 3 [0] (fun n => n) 10 [1, 2, 3] (by decide)⟩

theorem goMapGet_insert (es : List (List Nat × IngesterDesc)) (k : List Nat)
    (v : IngesterDesc) : goMapGet (goMapInsert es k v) k = v := by
  induction es with
  | nil => simp [goMapInsert, goMapGet]
  | cons kv es ih =>
    obtain ⟨k0, v0⟩ := kv
    by_cases hk : k0 = k
    · simp [goMapInsert, goMapGet, hk]
    · simp only [goMapInsert, if_neg hk, goMapGet]
      exact ih

/-- C8: the modelled lifecycler startup follows PENDING → JOINING → ACTIVE:
before start it is unregistered, PENDING, with no tokens; the initial-sync
registration puts it in the ring in state JOINING; when activation
completes it is registered in state ACTIVE holding exactly `numTokens`
tokens, and every token its pre-existing ring entry held (whatever state
that entry was in) is among its final tokens. -/
theorem claim_C8 (ring : Desc) (id : List Nat) (numTokens : Nat)
    (stream : Nat → Nat) (fuel : Nat)
    (hold : (goMapGet ring.Ingesters id).Tokens.length ≤ numTokens) :
    (lifecyclerInit.registered = false ∧ lifecyclerInit.state = PENDING ∧
        lifecyclerInit.tokens = []) ∧
      ((lifecyclerJoin ring id).2.registered = true ∧
        (lifecyclerJoin ring id).2.state = JOINING ∧
        (goMapGet (lifecyclerJoin ring id).1.Ingesters id).State = JOINING ∧
        (goMapGet (lifecyclerJoin ring id).1.Ingesters id).Tokens =
          (goMapGet ring.Ingesters id).Tokens) ∧
      (∀ d' lc',
        lifecyclerActivate numTokens stream fuel (lifecyclerJoin ring id).1 id
            (lifecyclerJoin ring id).2 = some (d', lc') →
        lc'.registered = true ∧ lc'.state = ACTIVE ∧
          lc'.tokens.length = numTokens ∧
          (∀ t ∈ (goMapGet ring.Ingesters id).Tokens, t ∈ lc'.tokens) ∧
          (goMapGet d'.Ingesters id).State = ACTIVE ∧
          (goMapGet d'.Ingesters id).Tokens = lc'.tokens) := by
  refine ⟨⟨rfl, rfl, rfl⟩, ⟨rfl, rfl, ?_, ?_⟩, ?_⟩
  · unfold lifecyclerJoin
    rw [goMapGet_insert]
  · unfold lifecyclerJoin
    rw [goMapGet_insert]
  · intro d' lc' h
    unfold lifecyclerActivate at h
    cases heq : GenerateTokens
        (numTokens - (lifecyclerJoin ring id).2.tokens.length)
        (lifecyclerJoin ring id).2.tokens stream fuel with
    | none => rw [heq] at h; cases h
    | some fresh =>
      rw [heq] at h
      simp only [Option.some.injEq, Prod.mk.injEq] at h
      obtain ⟨hd, hlc⟩ := h
      obtain ⟨hflen, _, _⟩ := GenerateTokens_spec heq
      have htoks : (lifecyclerJoin ring id).2.tokens
          = (goMapGet ring.Ingesters id).Tokens := rfl
      subst hd hlc
      rw [htoks] at hflen ⊢
      refine ⟨rfl, rfl, ?_, ?_, ?_, ?_⟩
      · simp only [List.length_append, hflen]
        omega
      · intro t ht
        exact List.mem_append_left _ ht
      · rw [goMapGet_insert]
      · rw [goMapGet_insert]

theorem claim_C8_witness :
    (goMapGet (⟨[([105], ⟨[], 50, 1, [5]⟩)]⟩ : Desc).Ingesters [105]).Tokens.length
        ≤ 3 ∧
      ((lifecyclerInit.registered = false ∧ lifecyclerInit.state = PENDING ∧
          lifecyclerInit.tokens = []) ∧
        ((lifecyclerJoin ⟨[([105], ⟨[], 50, 1, [5]⟩)]⟩ [105]).2.registered = true ∧
          (lifecyclerJoin ⟨[([105], ⟨[], 50, 1, [5]⟩)]⟩ [105]).2.state = JOINING ∧
          (goMapGet (lifecyclerJoin ⟨[([105], ⟨[], 50, 1, [5]⟩)]⟩ [105]).1.Ingesters
              [105]).State = JOINING ∧
          (goMapGet (lifecyclerJoin ⟨[([105], ⟨[], 50, 1, [5]⟩)]⟩ [105]).1.Ingesters
              [105]).Tokens =
            (goMapGet (⟨[([105], ⟨[], 50, 1, [5]⟩)]⟩ : Desc).Ingesters [105]).Tokens) ∧
        (∀ d' lc',
          lifecyclerActivate 3 (fun n => n) 10
              (lifecyclerJoin ⟨[([105], ⟨[], 50, 1, [5]⟩)]⟩ [105]).1 [105]
              (lifecyclerJoin ⟨[([105], ⟨[], 50, 1, [5]⟩)]⟩ [105]).2 =
            some (d', lc') →
          lc'.registered = true ∧ lc'.state = ACTIVE ∧ lc'.tokens.length = 3 ∧
            (∀ t ∈ (goMapGet (⟨[([105], ⟨[], 50, 1, [5]⟩)]⟩ : Desc).Ingesters
              [105]).Tokens, t ∈ lc'.tokens) ∧
            (goMapGet d'.Ingesters [105]).State = ACTIVE ∧
            (goMapGet d'.Ingesters [105]).Tokens = lc'.tokens)) :=
  ⟨by decide, claim_C8 ⟨[([105], ⟨[], 50, 1, [5]⟩)]⟩ [105] 3 (fun n => n) 10 (by decide)⟩
